import Mathlib

/-!
Verification of the transaction builder of `radix-engine`
(`src/radix-engine/src/transaction/builder.rs`).

The development shallowly embeds the builder, its resource-amount grammar,
argument coercion and program finalization, and proves the spec's testable
properties about them.  Types that live outside the provided source slice
(addresses, decimals, the instruction enum, the identifier allocator, the
error enums, the ABI shapes) are modelled from the spec and marked as such.
-/

namespace RadixBuilder


instance {e a : Type _} [DecidableEq e] [DecidableEq a] : DecidableEq (Except e a) :=
  fun x y =>
    match x, y with
    | .error u, .error v =>
      if h : u = v then .isTrue (h ▸ rfl)
      else .isFalse (fun hh => h (Except.error.inj hh))
    | .error _, .ok _ => .isFalse (fun hh => Except.noConfusion hh)
    | .ok _, .error _ => .isFalse (fun hh => Except.noConfusion hh)
    | .ok u, .ok v =>
      if h : u = v then .isTrue (h ▸ rfl)
      else .isFalse (fun hh => h (Except.ok.inj hh))

/-! ## Character-level parsing utilities

The Rust implementation works on `&str` via `trim`, `split(',')` and the
standard `FromStr` instances.  We model strings as `List Char` at the token
level and provide the corresponding operations.  -/

/-- Embedding of `s.trim()`: drop Unicode whitespace from both ends (modelled with
`Char.isWhitespace`). -/
def trimChars (cs : List Char) : List Char :=
  ((cs.dropWhile Char.isWhitespace).reverse.dropWhile Char.isWhitespace).reverse

/-- Embedding of `s.split(',')`: split into comma-separated tokens.  Like Rust's
`split`, the empty string yields one empty token, and the result is never
empty. -/
def splitOnComma : List Char → List (List Char)
  | [] => [[]]
  | c :: cs =>
    if c = ',' then [] :: splitOnComma cs
    else
      match splitOnComma cs with
      | [] => [[c]]
      | t :: ts => (c :: t) :: ts

/-- Value of a base-10 digit character. -/
def digitVal (c : Char) : Option Nat :=
  if '0' ≤ c ∧ c ≤ '9' then some (c.toNat - '0'.toNat) else none

/-- Accumulating base-10 parse of a digit string. -/
def parseNatCore : List Char → Nat → Option Nat
  | [], acc => some acc
  | c :: cs, acc =>
    match digitVal c with
    | some d => parseNatCore cs (acc * 10 + d)
    | none => none

/-- Parse an unsigned base-10 integer; the empty string is rejected. -/
def parseNat (cs : List Char) : Option Nat :=
  if cs.isEmpty then none else parseNatCore cs 0

/-- Embedding of `str::parse::<u128>()`: unsigned 128-bit parse, overflow rejected.
Modelled from the spec: `u128` lives outside the source slice; it is
modelled as a natural number below `2^128` with the base-10 digit
grammar. -/
def parseU128 (cs : List Char) : Option Nat :=
  match parseNat cs with
  | some n => if n < 2 ^ 128 then some n else none
  | none => none

/-- Modelled from the spec: the `Decimal` fixed-point numeric type lives
outside the source slice; the spec only requires "a decimal amount" with a
canonical textual grammar, which we model as a natural number with the
base-10 digit grammar. -/
abbrev Decimal : Type := Nat

/-- Embedding of `str::parse::<Decimal>()`. -/
def parseDecimal (cs : List Char) : Option Decimal := parseNat cs

/-- Modelled from the spec: `Address` lives outside the source slice; an
address value is modelled as its textual form, and which strings are
well-formed addresses is a parameter `valid` of the whole development. -/
abbrev Address : Type := String

/-- Embedding of `str::parse::<Address>()` against the validity parameter. -/
def parseAddress (valid : String → Bool) (cs : List Char) : Option Address :=
  if valid (String.mk cs) then some (String.mk cs) else none

/-! ## Resource amount grammar (`ResourceAmount`, `ParseResourceAmountError`) -/

/-- Embedding of `ParseResourceAmountError` from `builder.rs`. -/
inductive ParseResourceAmountError
  | InvalidAmount
  | InvalidNftId
  | InvalidResourceAddress
  | MissingResourceAddress
deriving DecidableEq, Repr

/-- Embedding of `ResourceAmount` from `builder.rs`: a fungible amount or a set of
non-fungible ids, tied to a resource address. -/
inductive ResourceAmount
  | Fungible (amount : Decimal) (resource_address : Address)
  | NonFungible (ids : Finset Nat) (resource_address : Address)
deriving DecidableEq

/-- The id-collecting loop of `ResourceAmount::from_str`: each token must
start with `#` and its remainder must parse as `u128`; ids accumulate into
the set. -/
def collectNftIds : List (List Char) → Finset Nat → Option (Finset Nat)
  | [], ids => some ids
  | t :: ts, ids =>
    if t.head? = some '#' then
      match parseU128 t.tail with
      | some n => collectNftIds ts (insert n ids)
      | none => none
    else
      none

/-- Embedding of `ResourceAmount::from_str`, at the token level (after trim + split). -/
def fromStrTokens (valid : String → Bool) (tokens : List (List Char)) :
    Except ParseResourceAmountError ResourceAmount :=
  if 2 ≤ tokens.length then
    match parseAddress valid (tokens.getLastD []) with
    | none => .error .InvalidResourceAddress
    | some resource_address =>
      if (tokens.headD []).head? = some '#' then
        match collectNftIds tokens.dropLast ∅ with
        | some ids => .ok (.NonFungible ids resource_address)
        | none => .error .InvalidNftId
      else
        if tokens.length = 2 then
          match parseDecimal (tokens.headD []) with
          | some amount => .ok (.Fungible amount resource_address)
          | none => .error .InvalidAmount
        else
          .error .InvalidAmount
  else
    .error .MissingResourceAddress

/-- Embedding of `ResourceAmount::from_str`. -/
def ResourceAmount.fromStr (valid : String → Bool) (s : String) :
    Except ParseResourceAmountError ResourceAmount :=
  fromStrTokens valid (splitOnComma (trimChars s.data))

/-- Embedding of `ResourceAmount::amount`. -/
def ResourceAmount.amount : ResourceAmount → Decimal
  | .Fungible amount _ => amount
  | .NonFungible ids _ => (ids.card : Nat)

/-- Embedding of `ResourceAmount::resource_address`. -/
def ResourceAmount.resource_address : ResourceAmount → Address
  | .Fungible _ a => a
  | .NonFungible _ a => a

/-! ## Instruction model and engine-ready values

Modelled from the spec: the `Instruction` enum, `SmartValue` encoded
values, `ResourceType`/`NewSupply` and the error enums are declared in
parts of the repository outside the provided source slice; their shapes
are taken from §3, §4.4 and §7 of the spec and from how `builder.rs`
constructs them. -/

/-- Modelled from the spec: `ResourceType` (§4.4): fungible with a
divisibility, or non-fungible. -/
inductive ResourceType
  | Fungible (divisibility : Nat)
  | NonFungible
deriving DecidableEq, Repr

/-- Modelled from the spec: `NewSupply` (§4.4): a fungible initial supply
amount, or a mapping from 128-bit id to serialized data. -/
inductive NewSupply
  | Fungible (amount : Decimal)
  | NonFungible (entries : List (Nat × List Nat))
deriving DecidableEq, Repr

/-- Modelled from the spec: `SmartValue`, the engine-ready encoded value
produced by `SmartValue::from(...)`; one constructor per Rust source type
that `builder.rs` encodes. -/
inductive SmartValue
  | ofBool (b : Bool)
  | ofI8 (v : Int)
  | ofI16 (v : Int)
  | ofI32 (v : Int)
  | ofI64 (v : Int)
  | ofI128 (v : Int)
  | ofU8 (v : Nat)
  | ofU16 (v : Nat)
  | ofU32 (v : Nat)
  | ofU64 (v : Nat)
  | ofU128 (v : Nat)
  | ofString (s : String)
  | ofDecimal (v : Decimal)
  | ofBigDecimal (v : Decimal)
  | ofAddress (a : Address)
  | ofH256 (h : String)
  | ofBid (id : Nat)
  | ofRid (id : Nat)
  | ofU128Set (ids : Finset Nat)
  | ofBytes (code : List Nat)
  | ofResourceType (t : ResourceType)
  | ofStringMap (m : List (String × String))
  | ofAuthMap (m : List (Address × Nat))
  | ofNewSupply (s : Option NewSupply)
deriving DecidableEq

/-- Modelled from the spec: the `Instruction` enum (§3).  Bucket and
bucket-ref ids (`Bid`, `Rid`) are modelled as naturals. -/
inductive Instruction
  | DeclareTempBucket
  | DeclareTempBucketRef
  | TakeFromContext (amount : Decimal) (resource_address : Address) (toId : Nat)
  | BorrowFromContext (amount : Decimal) (resource_address : Address) (toId : Nat)
  | CallFunction (package_address : Address) (blueprint_name : String)
      (function : String) (args : List SmartValue)
  | CallMethod (component_address : Address) (method : String)
      (args : List SmartValue)
  | DropAllBucketRefs
  | DepositAllBuckets (account : Address)
  | End (signers : List Address)
deriving DecidableEq

/-- Modelled from the spec: the sbor `Type` descriptor of a declared
parameter (§3): a primitive kind, a named custom kind, or one of the
other sbor kinds (struct, enum, vec, ...) that the builder does not
support, collapsed into `Other`. -/
inductive Ty
  | Bool | I8 | I16 | I32 | I64 | I128
  | U8 | U16 | U32 | U64 | U128
  | String
  | Custom (name : String)
  | Other (tag : Nat)
deriving DecidableEq, Repr

/-- Modelled from the spec: `BuildArgsError` (§7). -/
inductive BuildArgsError
  | MissingArgument (i : Nat) (ty : Ty)
  | FailedToParse (i : Nat) (ty : Ty) (raw : String)
  | UnsupportedType (i : Nat) (ty : Ty)
deriving DecidableEq

/-- Modelled from the spec: `BuildTransactionError` (§7). -/
inductive BuildTransactionError
  | FailedToExportFunctionAbi (package : Address) (blueprint : String) (function : String)
  | FailedToExportMethodAbi (component : Address) (method : String)
  | FunctionNotFound (name : String)
  | MethodNotFound (name : String)
  | FailedToBuildArgs (e : BuildArgsError)
deriving DecidableEq

/-- Modelled from the spec: `abi::Function`: a name and the ordered
declared parameter types. -/
structure FnAbi where
  name : String
  inputs : List Ty
deriving DecidableEq

/-- Modelled from the spec: `abi::Method`. -/
structure MethodAbi where
  name : String
  inputs : List Ty
deriving DecidableEq

/-- Modelled from the spec: `abi::Blueprint`: the functions and methods of
a blueprint. -/
structure Blueprint where
  functions : List FnAbi
  methods : List MethodAbi
deriving DecidableEq

/-- Modelled from the spec (§6): the interface provider;
`export_abi`/`export_abi_component` may fail, modelled with `Option`. -/
structure AbiProvider where
  exportAbi : Address → String → Option Blueprint
  exportAbiComponent : Address → Option Blueprint

/-- Modelled from the spec (§3): the identifier allocator, two independent
zero-based counters. -/
structure IdAllocator where
  bidCounter : Nat
  ridCounter : Nat
deriving DecidableEq

/-- Embedding of `IdAllocator::new()`. -/
def IdAllocator.mkNew : IdAllocator := ⟨0, 0⟩

/-- Embedding of `IdAllocator::new_bid()`: return the current bucket counter, then
increment it. -/
def IdAllocator.newBid (a : IdAllocator) : Nat × IdAllocator :=
  (a.bidCounter, { a with bidCounter := a.bidCounter + 1 })

/-- Embedding of `IdAllocator::new_rid()`. -/
def IdAllocator.newRid (a : IdAllocator) : Nat × IdAllocator :=
  (a.ridCounter, { a with ridCounter := a.ridCounter + 1 })

/-! ## Transaction builder state and primitive operations -/

/-- Embedding of `TransactionBuilder` state: the allocator, the reservations sequence,
the body instruction sequence, and the collected errors.  The ABI
provider and the address-validity predicate are passed to the operations
that need them instead of being stored. -/
structure Builder where
  allocator : IdAllocator
  reservations : List Instruction
  instructions : List Instruction
  errors : List BuildTransactionError
deriving DecidableEq

/-- Embedding of `TransactionBuilder::new`. -/
def Builder.mkNew : Builder := ⟨IdAllocator.mkNew, [], [], []⟩

/-- Embedding of `TransactionBuilder::add_instruction`. -/
def Builder.addInstruction (b : Builder) (inst : Instruction) : Builder :=
  { b with instructions := b.instructions ++ [inst] }

/-- Embedding of `TransactionBuilder::declare_bucket`: allocate a bucket id, push a
`DeclareTempBucket` reservation, then run the continuation with the id. -/
def Builder.declareBucket (b : Builder) (then_ : Builder → Nat → Builder) : Builder :=
  let (bid, alloc) := b.allocator.newBid
  then_ { b with
          allocator := alloc
          reservations := b.reservations ++ [Instruction.DeclareTempBucket] } bid

/-- Embedding of `TransactionBuilder::declare_bucket_ref`. -/
def Builder.declareBucketRef (b : Builder) (then_ : Builder → Nat → Builder) : Builder :=
  let (rid, alloc) := b.allocator.newRid
  then_ { b with
          allocator := alloc
          reservations := b.reservations ++ [Instruction.DeclareTempBucketRef] } rid

/-- Embedding of `TransactionBuilder::take_from_context`. -/
def Builder.takeFromContext (b : Builder) (amount : Decimal)
    (resource_address : Address) (toId : Nat) : Builder :=
  b.addInstruction (.TakeFromContext amount resource_address toId)

/-- Embedding of `TransactionBuilder::borrow_from_context`. -/
def Builder.borrowFromContext (b : Builder) (amount : Decimal)
    (resource_address : Address) (rid : Nat) : Builder :=
  b.addInstruction (.BorrowFromContext amount resource_address rid)

/-- Embedding of `TransactionBuilder::drop_all_bucket_refs`. -/
def Builder.dropAllBucketRefs (b : Builder) : Builder :=
  b.addInstruction .DropAllBucketRefs

/-- Embedding of `TransactionBuilder::deposit_all_buckets`. -/
def Builder.depositAllBuckets (b : Builder) (account : Address) : Builder :=
  b.addInstruction (.DepositAllBuckets account)

/-- Embedding of `TransactionBuilder::build`: fail with the first recorded error, or
concatenate reservations, body instructions and a final `End`. -/
def Builder.build (b : Builder) (signers : List Address) :
    Except BuildTransactionError (List Instruction) :=
  match b.errors with
  | e :: _ => .error e
  | [] => .ok (b.reservations ++ b.instructions ++ [Instruction.End signers])

/-- Embedding of `TransactionBuilder::withdraw_from_account`: a `withdraw` call for a
fungible spec, a `withdraw_nfts` call for a non-fungible one. -/
def Builder.withdrawFromAccount (b : Builder) (resource_spec : ResourceAmount)
    (account : Address) : Builder :=
  match resource_spec with
  | .Fungible amount resource_address =>
      b.addInstruction (.CallMethod account "withdraw"
        [SmartValue.ofDecimal amount, SmartValue.ofAddress resource_address])
  | .NonFungible ids resource_address =>
      b.addInstruction (.CallMethod account "withdraw_nfts"
        [SmartValue.ofU128Set ids, SmartValue.ofAddress resource_address])

/-! ## Primitive textual grammars of the basic parameter kinds

Modelled from the spec (§4.2): primitive kinds parse with their canonical
textual grammars (`bool`, signed/unsigned integers of each width,
strings). -/

/-- Embedding of `str::parse::<bool>()`. -/
def parseBool (cs : List Char) : Option Bool :=
  if cs = "true".data then some true
  else if cs = "false".data then some false
  else none

/-- Optional leading `+` of an unsigned integer literal. -/
def stripPlus (cs : List Char) : List Char :=
  match cs with
  | '+' :: rest => rest
  | _ => cs

/-- Embedding of `str::parse::<uN>()`: optional `+`, digits, range check. -/
def parseUnsigned (bits : Nat) (cs : List Char) : Option Nat :=
  match parseNat (stripPlus cs) with
  | some n => if n < 2 ^ bits then some n else none
  | none => none

/-- Embedding of `str::parse::<iN>()`: optional sign, digits, range check. -/
def parseSigned (bits : Nat) (cs : List Char) : Option Int :=
  let signed : Option Int :=
    match cs with
    | '-' :: rest => (parseNat rest).map fun n => -(n : Int)
    | '+' :: rest => (parseNat rest).map fun n => (n : Int)
    | _ => (parseNat cs).map fun n => (n : Int)
  match signed with
  | some v => if -(2 ^ (bits - 1) : Int) ≤ v ∧ v < 2 ^ (bits - 1) then some v else none
  | none => none

/-- A base-16 digit character. -/
def isHexChar (c : Char) : Bool :=
  c.isDigit || ('a' ≤ c && c ≤ 'f') || ('A' ≤ c && c ≤ 'F')

/-- Modelled from the spec: the hash (`H256`) textual grammar, 64 hex
characters. -/
def parseH256 (cs : List Char) : Option String :=
  if cs.length = 64 ∧ cs.all isHexChar then some (String.mk cs) else none

/-! ## Argument coercion (`prepare_args`, `prepare_basic_ty`,
`prepare_custom_ty`) -/

/-- Modelled from the spec: the `SCRYPTO_NAME_*` constants naming the
custom parameter kinds (decimal, extended-precision decimal, address,
hash, bucket, bucket-reference). -/
def SCRYPTO_NAME_DECIMAL : String := "Decimal"

def SCRYPTO_NAME_BIG_DECIMAL : String := "BigDecimal"

def SCRYPTO_NAME_ADDRESS : String := "Address"

def SCRYPTO_NAME_H256 : String := "H256"

def SCRYPTO_NAME_BID : String := "Bid"

def SCRYPTO_NAME_BUCKET : String := "Bucket"

def SCRYPTO_NAME_RID : String := "Rid"

def SCRYPTO_NAME_BUCKET_REF : String := "BucketRef"

/-- Embedding of `prepare_basic_ty::<T>`: parse the raw string with the kind's grammar
and encode it, failing as `FailedToParse`. -/
def prepareBasicTy {α : Type} (parse : List Char → Option α)
    (enc : α → SmartValue) (i : Nat) (ty : Ty) (arg : String) :
    Except BuildArgsError SmartValue :=
  match parse arg.data with
  | some v => .ok (enc v)
  | none => .error (.FailedToParse i ty arg)

/-- Embedding of `parse_resource_spec`. -/
def parseResourceSpec (valid : String → Bool) (i : Nat) (ty : Ty) (arg : String) :
    Except BuildArgsError ResourceAmount :=
  match ResourceAmount.fromStr valid arg with
  | .ok spec => .ok spec
  | .error _ => .error (.FailedToParse i ty arg)

/-- Embedding of `prepare_custom_ty`: coercion of a named custom kind.  The bucket and
bucket-ref branches emit the withdraw (when an account was supplied) and
the declare+fill instructions; `declare_bucket`'s continuation-captured id
is the allocator value at the time of the call. -/
def Builder.prepareCustomTy (b : Builder) (valid : String → Bool) (i : Nat)
    (ty : Ty) (arg : String) (name : String) (account : Option Address) :
    Except BuildArgsError SmartValue × Builder :=
  if name = SCRYPTO_NAME_DECIMAL then
    (prepareBasicTy parseDecimal SmartValue.ofDecimal i ty arg, b)
  else if name = SCRYPTO_NAME_BIG_DECIMAL then
    (prepareBasicTy parseDecimal SmartValue.ofBigDecimal i ty arg, b)
  else if name = SCRYPTO_NAME_ADDRESS then
    (prepareBasicTy (parseAddress valid) SmartValue.ofAddress i ty arg, b)
  else if name = SCRYPTO_NAME_H256 then
    (prepareBasicTy parseH256 SmartValue.ofH256 i ty arg, b)
  else if name = SCRYPTO_NAME_BID ∨ name = SCRYPTO_NAME_BUCKET then
    match parseResourceSpec valid i ty arg with
    | .error e => (.error e, b)
    | .ok resource_spec =>
      let b1 := match account with
                | some acct => b.withdrawFromAccount resource_spec acct
                | none => b
      let created_bid := b1.allocator.bidCounter
      let b2 := b1.declareBucket fun builder bid =>
        builder.takeFromContext resource_spec.amount
          resource_spec.resource_address bid
      (.ok (SmartValue.ofBid created_bid), b2)
  else if name = SCRYPTO_NAME_RID ∨ name = SCRYPTO_NAME_BUCKET_REF then
    match parseResourceSpec valid i ty arg with
    | .error e => (.error e, b)
    | .ok resource_spec =>
      let b1 := match account with
                | some acct => b.withdrawFromAccount resource_spec acct
                | none => b
      let created_rid := b1.allocator.ridCounter
      let b2 := b1.declareBucketRef fun builder rid =>
        builder.borrowFromContext resource_spec.amount
          resource_spec.resource_address rid
      (.ok (SmartValue.ofRid created_rid), b2)
  else
    (.error (.UnsupportedType i ty), b)

/-- One iteration of the `prepare_args` loop: dispatch on the declared
parameter type. -/
def Builder.prepareOne (b : Builder) (valid : String → Bool) (i : Nat)
    (t : Ty) (arg : String) (account : Option Address) :
    Except BuildArgsError SmartValue × Builder :=
  match t with
  | .Bool => (prepareBasicTy parseBool SmartValue.ofBool i t arg, b)
  | .I8 => (prepareBasicTy (parseSigned 8) SmartValue.ofI8 i t arg, b)
  | .I16 => (prepareBasicTy (parseSigned 16) SmartValue.ofI16 i t arg, b)
  | .I32 => (prepareBasicTy (parseSigned 32) SmartValue.ofI32 i t arg, b)
  | .I64 => (prepareBasicTy (parseSigned 64) SmartValue.ofI64 i t arg, b)
  | .I128 => (prepareBasicTy (parseSigned 128) SmartValue.ofI128 i t arg, b)
  | .U8 => (prepareBasicTy (parseUnsigned 8) SmartValue.ofU8 i t arg, b)
  | .U16 => (prepareBasicTy (parseUnsigned 16) SmartValue.ofU16 i t arg, b)
  | .U32 => (prepareBasicTy (parseUnsigned 32) SmartValue.ofU32 i t arg, b)
  | .U64 => (prepareBasicTy (parseUnsigned 64) SmartValue.ofU64 i t arg, b)
  | .U128 => (prepareBasicTy (parseUnsigned 128) SmartValue.ofU128 i t arg, b)
  | .String => (.ok (SmartValue.ofString arg), b)
  | .Custom name => b.prepareCustomTy valid i t arg name account
  | .Other _ => (.error (.UnsupportedType i t), b)

/-- The `prepare_args` loop over the declared types, carrying the running
index `i` and the encoded values so far.  A missing raw argument fails as
`MissingArgument`; a failing coercion aborts the loop (the encoded values
are dropped but instruction emissions made so far are kept). -/
def Builder.prepareArgsAux (b : Builder) (valid : String → Bool)
    (types : List Ty) (args : List String) (account : Option Address)
    (i : Nat) (acc : List SmartValue) :
    Except BuildArgsError (List SmartValue) × Builder :=
  match types with
  | [] => (.ok acc, b)
  | t :: ts =>
    match args.get? i with
    | none => (.error (.MissingArgument i t), b)
    | some arg =>
      match b.prepareOne valid i t arg account with
      | (.error e, b1) => (.error e, b1)
      | (.ok v, b1) => b1.prepareArgsAux valid ts args account (i + 1) (acc ++ [v])

/-- Embedding of `prepare_args`. -/
def Builder.prepareArgs (b : Builder) (valid : String → Bool)
    (types : List Ty) (args : List String) (account : Option Address) :
    Except BuildArgsError (List SmartValue) × Builder :=
  b.prepareArgsAux valid types args account 0 []

/-! ## Call operations -/

/-- Embedding of `find_function_abi`. -/
def findFunctionAbi (abi : Blueprint) (function : String) :
    Except BuildTransactionError FnAbi :=
  match abi.functions.find? (fun f => f.name = function) with
  | some f => .ok f
  | none => .error (.FunctionNotFound function)

/-- Embedding of `find_method_abi`. -/
def findMethodAbi (abi : Blueprint) (method : String) :
    Except BuildTransactionError MethodAbi :=
  match abi.methods.find? (fun m => m.name = method) with
  | some m => .ok m
  | none => .error (.MethodNotFound method)

/-- Embedding of `TransactionBuilder::call_function`: export the ABI, locate the
function, coerce the raw arguments; on success append a `CallFunction`
instruction, on failure record the error. -/
def Builder.callFunction (b : Builder) (valid : String → Bool)
    (prov : AbiProvider) (package_address : Address) (blueprint_name : String)
    (function : String) (args : List String) (account : Option Address) : Builder :=
  match prov.exportAbi package_address blueprint_name with
  | none =>
      { b with errors := b.errors ++
          [BuildTransactionError.FailedToExportFunctionAbi package_address
            blueprint_name function] }
  | some abi =>
    match findFunctionAbi abi function with
    | .error e => { b with errors := b.errors ++ [e] }
    | .ok f =>
      match b.prepareArgs valid f.inputs args account with
      | (.error e, b1) =>
          { b1 with errors := b1.errors ++ [BuildTransactionError.FailedToBuildArgs e] }
      | (.ok vs, b1) =>
          b1.addInstruction (.CallFunction package_address blueprint_name function vs)

/-- Embedding of `TransactionBuilder::call_method`. -/
def Builder.callMethod (b : Builder) (valid : String → Bool)
    (prov : AbiProvider) (component_address : Address) (method : String)
    (args : List String) (account : Option Address) : Builder :=
  match prov.exportAbiComponent component_address with
  | none =>
      { b with errors := b.errors ++
          [BuildTransactionError.FailedToExportMethodAbi component_address method] }
  | some abi =>
    match findMethodAbi abi method with
    | .error e => { b with errors := b.errors ++ [e] }
    | .ok m =>
      match b.prepareArgs valid m.inputs args account with
      | (.error e, b1) =>
          { b1 with errors := b1.errors ++ [BuildTransactionError.FailedToBuildArgs e] }
      | (.ok vs, b1) =>
          b1.addInstruction (.CallMethod component_address method vs)

/-! ## Convenience operations -/

/-- Modelled from the spec (§9): the built-in system package address. -/
def SYSTEM_PACKAGE : Address := "system-package"

/-- Modelled from the spec (§9): the built-in account package address. -/
def ACCOUNT_PACKAGE : Address := "account-package"

/-- Modelled from the spec (§4.4): the lifecycle flag bits. -/
def MINTABLE : Nat := 1

def BURNABLE : Nat := 2

/-- Modelled from the spec (§4.4): the permission bits. -/
def MAY_MINT : Nat := 1

def MAY_BURN : Nat := 2

/-- Embedding of `single_authority`. -/
def singleAuthority (badge : Address) (permission : Nat) : List (Address × Nat) :=
  [(badge, permission)]

/-- Embedding of `TransactionBuilder::publish_package`. -/
def Builder.publishPackage (b : Builder) (code : List Nat) : Builder :=
  b.addInstruction (.CallFunction SYSTEM_PACKAGE "System" "publish_package"
    [SmartValue.ofBytes code])

/-- Embedding of `TransactionBuilder::new_token_mutable`. -/
def Builder.newTokenMutable (b : Builder) (metadata : List (String × String))
    (mint_badge_address : Address) : Builder :=
  b.addInstruction (.CallFunction SYSTEM_PACKAGE "System" "new_resource"
    [SmartValue.ofResourceType (.Fungible 18),
     SmartValue.ofStringMap metadata,
     SmartValue.ofU16 (MINTABLE ||| BURNABLE),
     SmartValue.ofU16 0,
     SmartValue.ofAuthMap (singleAuthority mint_badge_address (MAY_MINT ||| MAY_BURN)),
     SmartValue.ofNewSupply none])

/-- Embedding of `TransactionBuilder::new_token_fixed`. -/
def Builder.newTokenFixed (b : Builder) (metadata : List (String × String))
    (initial_supply : Decimal) : Builder :=
  b.addInstruction (.CallFunction SYSTEM_PACKAGE "System" "new_resource"
    [SmartValue.ofResourceType (.Fungible 18),
     SmartValue.ofStringMap metadata,
     SmartValue.ofU16 0,
     SmartValue.ofU16 0,
     SmartValue.ofAuthMap [],
     SmartValue.ofNewSupply (some (.Fungible initial_supply))])

/-- Embedding of `TransactionBuilder::new_badge_mutable`. -/
def Builder.newBadgeMutable (b : Builder) (metadata : List (String × String))
    (mint_badge_address : Address) : Builder :=
  b.addInstruction (.CallFunction SYSTEM_PACKAGE "System" "new_resource"
    [SmartValue.ofResourceType (.Fungible 0),
     SmartValue.ofStringMap metadata,
     SmartValue.ofU16 (MINTABLE ||| BURNABLE),
     SmartValue.ofU16 0,
     SmartValue.ofAuthMap (singleAuthority mint_badge_address (MAY_MINT ||| MAY_BURN)),
     SmartValue.ofNewSupply none])

/-- Embedding of `TransactionBuilder::new_badge_fixed`. -/
def Builder.newBadgeFixed (b : Builder) (metadata : List (String × String))
    (initial_supply : Decimal) : Builder :=
  b.addInstruction (.CallFunction SYSTEM_PACKAGE "System" "new_resource"
    [SmartValue.ofResourceType (.Fungible 0),
     SmartValue.ofStringMap metadata,
     SmartValue.ofU16 0,
     SmartValue.ofU16 0,
     SmartValue.ofAuthMap [],
     SmartValue.ofNewSupply (some (.Fungible initial_supply))])

/-- Embedding of `TransactionBuilder::mint`. -/
def Builder.mint (b : Builder) (amount : Decimal) (resource_address : Address)
    (mint_badge_address : Address) : Builder :=
  b.declareBucketRef fun builder rid =>
    (builder.borrowFromContext 1 mint_badge_address rid).addInstruction
      (.CallFunction SYSTEM_PACKAGE "System" "mint"
        [SmartValue.ofDecimal amount,
         SmartValue.ofAddress resource_address,
         SmartValue.ofRid rid])

/-- Embedding of `TransactionBuilder::new_account`. -/
def Builder.newAccount (b : Builder) (key : Address) : Builder :=
  b.addInstruction (.CallFunction ACCOUNT_PACKAGE "Account" "new"
    [SmartValue.ofAddress key])

/-- Embedding of `TransactionBuilder::new_account_with_resource`. -/
def Builder.newAccountWithResource (b : Builder) (key : Address)
    (amount : Decimal) (resource_address : Address) : Builder :=
  b.declareBucket fun builder bid =>
    (builder.takeFromContext amount resource_address bid).addInstruction
      (.CallFunction ACCOUNT_PACKAGE "Account" "with_bucket"
        [SmartValue.ofAddress key, SmartValue.ofBid bid])

/-! ## Canonical formatting of amounts and resource specifications

Used to state the grammar round-trip property (§8). -/

/-- The character of a base-10 digit. -/
def digitChar (d : Nat) : Char := Char.ofNat (48 + d)

/-- Fuel-driven base-10 rendering loop (structurally recursive so that it
reduces in the kernel). -/
def natToCharsLoop : Nat → Nat → List Char → List Char
  | 0, _, acc => acc
  | fuel + 1, n, acc =>
    if n < 10 then digitChar n :: acc
    else natToCharsLoop fuel (n / 10) (digitChar (n % 10) :: acc)

/-- Canonical base-10 rendering of a natural number. -/
def natToChars (n : Nat) : List Char := natToCharsLoop (n + 1) n []

/-- Big-endian digit list of a natural number (`0` renders as `[0]`). -/
def bigEndianDigits (n : Nat) : List Nat :=
  if n = 0 then [0] else (Nat.digits 10 n).reverse

/-- Format a fungible amount as `"{A},{R}"`. -/
def formatFungible (a : Decimal) (r : Address) : String :=
  String.mk (natToChars a ++ ',' :: r.data)

/-- Format a non-fungible id list as `"#i1,...,#ik,{R}"`. -/
def formatNonFungible (ids : List Nat) (r : Address) : String :=
  String.mk (ids.foldr (fun i acc => '#' :: (natToChars i ++ ',' :: acc)) r.data)

/-! ## Example fixtures

A concrete address-validity predicate and a concrete ABI provider, used to
instantiate the verified properties on concrete inputs. -/

/-- An example validity predicate: exactly the addresses appearing in the
concrete scenarios are well-formed. -/
def exampleValid (s : String) : Bool :=
  s = "tokenA" || s = "acct1" || s = "pkg1" || s = "comp1"

/-- An example ABI provider with one blueprint exposing a function of
signature `(Decimal, Bucket)`, a function of signature
`(Bucket, Decimal)`, and a component with one method `(Decimal, Bucket)`. -/
def exampleProvider : AbiProvider where
  exportAbi := fun pkg bp =>
    if pkg = "pkg1" ∧ bp = "BP" then
      some { functions := [⟨"f", [Ty.Custom "Decimal", Ty.Custom "Bucket"]⟩,
                           ⟨"g", [Ty.Custom "Bucket", Ty.Custom "Decimal"]⟩],
             methods := [⟨"m", [Ty.Custom "Decimal", Ty.Custom "Bucket"]⟩] }
    else none
  exportAbiComponent := fun comp =>
    if comp = "comp1" then
      some { functions := [],
             methods := [⟨"m", [Ty.Custom "Decimal", Ty.Custom "Bucket"]⟩] }
    else none


/-! ## The withdraw instruction shape -/

/-- The withdraw instruction emitted by `withdraw_from_account`. -/
def withdrawInstr (resource_spec : ResourceAmount) (account : Address) : Instruction :=
  match resource_spec with
  | .Fungible amount resource_address =>
      .CallMethod account "withdraw"
        [SmartValue.ofDecimal amount, SmartValue.ofAddress resource_address]
  | .NonFungible ids resource_address =>
      .CallMethod account "withdraw_nfts"
        [SmartValue.ofU128Set ids, SmartValue.ofAddress resource_address]


/-! ## Builder invariant machinery -/

/-- Bucket ids referenced by an encoded value. -/
def SmartValue.bids : SmartValue → List Nat
  | .ofBid n => [n]
  | _ => []

/-- Bucket-ref ids referenced by an encoded value. -/
def SmartValue.rids : SmartValue → List Nat
  | .ofRid n => [n]
  | _ => []

/-- Bucket ids referenced by an instruction. -/
def Instruction.bids : Instruction → List Nat
  | .TakeFromContext _ _ toId => [toId]
  | .CallFunction _ _ _ args => (args.map SmartValue.bids).flatten
  | .CallMethod _ _ args => (args.map SmartValue.bids).flatten
  | _ => []

/-- Bucket-ref ids referenced by an instruction. -/
def Instruction.rids : Instruction → List Nat
  | .BorrowFromContext _ _ toId => [toId]
  | .CallFunction _ _ _ args => (args.map SmartValue.rids).flatten
  | .CallMethod _ _ args => (args.map SmartValue.rids).flatten
  | _ => []

/-- Instructions that argument coercion may emit: fills of buckets and
bucket-refs, and account withdraws.  In particular never a
`CallFunction`, and never a declaration. -/
def Instruction.isResourceMove : Instruction → Bool
  | .TakeFromContext _ _ _ => true
  | .BorrowFromContext _ _ _ => true
  | .CallMethod _ m args => (m = "withdraw" || m = "withdraw_nfts") && args.length == 2
  | _ => false

/-- Well-formedness of a builder state: reservations hold only
declarations and count exactly the allocator's issued ids; the body holds
no declarations and references only already-allocated ids. -/
structure WF (b : Builder) : Prop where
  res_decl : ∀ inst ∈ b.reservations,
      inst = Instruction.DeclareTempBucket ∨ inst = Instruction.DeclareTempBucketRef
  bid_count : b.reservations.count Instruction.DeclareTempBucket = b.allocator.bidCounter
  rid_count : b.reservations.count Instruction.DeclareTempBucketRef = b.allocator.ridCounter
  body_not_decl : ∀ inst ∈ b.instructions,
      inst ≠ Instruction.DeclareTempBucket ∧ inst ≠ Instruction.DeclareTempBucketRef
  body_bids : ∀ inst ∈ b.instructions, ∀ n ∈ inst.bids, n < b.allocator.bidCounter
  body_rids : ∀ inst ∈ b.instructions, ∀ n ∈ inst.rids, n < b.allocator.ridCounter

/-- How one coercion step may extend a builder: errors untouched, counters
monotone, reservations extended by declarations matching the counter
increments, body extended by bounded resource-move instructions. -/
structure StepExt (b b1 : Builder) : Prop where
  errors_eq : b1.errors = b.errors
  bid_mono : b.allocator.bidCounter ≤ b1.allocator.bidCounter
  rid_mono : b.allocator.ridCounter ≤ b1.allocator.ridCounter
  res_ext : ∃ l, b1.reservations = b.reservations ++ l ∧
      (∀ inst ∈ l, inst = Instruction.DeclareTempBucket ∨
        inst = Instruction.DeclareTempBucketRef) ∧
      b.allocator.bidCounter + l.count Instruction.DeclareTempBucket =
        b1.allocator.bidCounter ∧
      b.allocator.ridCounter + l.count Instruction.DeclareTempBucketRef =
        b1.allocator.ridCounter
  body_ext : ∃ l, b1.instructions = b.instructions ++ l ∧
      ∀ inst ∈ l, inst.isResourceMove = true ∧
        (∀ n ∈ inst.bids, n < b1.allocator.bidCounter) ∧
        (∀ n ∈ inst.rids, n < b1.allocator.ridCounter)


/-! ## The builder operation set and reachable states -/

/-- The public builder operations (§4.1): calls, declare-and-fill pairs,
and the convenience helpers.  Fills are performed through the
`declare_bucket`/`declare_bucket_ref` continuations, as at every call site
in the source. -/
inductive Op
  | callFunction (pkg : Address) (bp fn : String) (args : List String)
      (account : Option Address)
  | callMethod (comp : Address) (meth : String) (args : List String)
      (account : Option Address)
  | declareBucketTake (amount : Decimal) (addr : Address)
  | declareBucketRefBorrow (amount : Decimal) (addr : Address)
  | dropAllBucketRefs
  | depositAllBuckets (account : Address)
  | publishPackage (code : List Nat)
  | newTokenMutable (metadata : List (String × String)) (badge : Address)
  | newTokenFixed (metadata : List (String × String)) (supply : Decimal)
  | newBadgeMutable (metadata : List (String × String)) (badge : Address)
  | newBadgeFixed (metadata : List (String × String)) (supply : Decimal)
  | mint (amount : Decimal) (resource : Address) (badge : Address)
  | newAccount (key : Address)
  | newAccountWithResource (key : Address) (amount : Decimal) (resource : Address)
  | withdrawFromAccount (spec : ResourceAmount) (account : Address)

/-- Apply one builder operation. -/
def step (valid : String → Bool) (prov : AbiProvider) (b : Builder) : Op → Builder
  | .callFunction pkg bp fn args account =>
      b.callFunction valid prov pkg bp fn args account
  | .callMethod comp meth args account =>
      b.callMethod valid prov comp meth args account
  | .declareBucketTake amount addr =>
      b.declareBucket fun bb bid => bb.takeFromContext amount addr bid
  | .declareBucketRefBorrow amount addr =>
      b.declareBucketRef fun bb rid => bb.borrowFromContext amount addr rid
  | .dropAllBucketRefs => b.dropAllBucketRefs
  | .depositAllBuckets account => b.depositAllBuckets account
  | .publishPackage code => b.publishPackage code
  | .newTokenMutable metadata badge => b.newTokenMutable metadata badge
  | .newTokenFixed metadata supply => b.newTokenFixed metadata supply
  | .newBadgeMutable metadata badge => b.newBadgeMutable metadata badge
  | .newBadgeFixed metadata supply => b.newBadgeFixed metadata supply
  | .mint amount resource badge => b.mint amount resource badge
  | .newAccount key => b.newAccount key
  | .newAccountWithResource key amount resource =>
      b.newAccountWithResource key amount resource
  | .withdrawFromAccount spec account => b.withdrawFromAccount spec account

/-- Builders reachable from a fresh builder through the operation set. -/
def Reachable (valid : String → Bool) (prov : AbiProvider) (b : Builder) : Prop :=
  ∃ ops : List Op, b = ops.foldl (step valid prov) Builder.mkNew


/-- The two kinds of declaration calls. -/
inductive DKind
  | bucket
  | bucketRef
deriving DecidableEq, Repr

/-- The reservation instruction a declaration call appends. -/
def declKindInstr : DKind → Instruction
  | .bucket => Instruction.DeclareTempBucket
  | .bucketRef => Instruction.DeclareTempBucketRef

/-- Run an interleaved sequence of `declare_bucket`/`declare_bucket_ref`
calls (with trivial continuations), collecting the ids handed to the
continuations. -/
def runDecls : Builder → List DKind → Builder × List Nat
  | b, [] => (b, [])
  | b, .bucket :: ks =>
    let id := b.allocator.bidCounter
    let b1 := b.declareBucket fun bb _ => bb
    let (bf, ids) := runDecls b1 ks
    (bf, id :: ids)
  | b, .bucketRef :: ks =>
    let id := b.allocator.ridCounter
    let b1 := b.declareBucketRef fun bb _ => bb
    let (bf, ids) := runDecls b1 ks
    (bf, id :: ids)

/-! ## Theorems -/

theorem splitOnComma_ne_nil (cs : List Char) : splitOnComma cs ≠ [] := by
  induction cs with
  | nil => simp [splitOnComma]
  | cons c cs ih =>
    simp only [splitOnComma]
    split
    · simp
    · cases h : splitOnComma cs <;> simp

/-! ### Digit and rendering lemmas -/

theorem digitVal_digitChar {d : Nat} (h : d < 10) :
    digitVal (digitChar d) = some d := by
  interval_cases d <;> decide

theorem digitChar_not_whitespace {d : Nat} (h : d < 10) :
    (digitChar d).isWhitespace = false := by
  interval_cases d <;> decide

theorem digitChar_ne_comma {d : Nat} (h : d < 10) : digitChar d ≠ ',' := by
  interval_cases d <;> decide

theorem digitChar_ne_hash {d : Nat} (h : d < 10) : digitChar d ≠ '#' := by
  interval_cases d <;> decide

theorem natToCharsLoop_eq (fuel n : Nat) (acc : List Char) (h : n < fuel) :
    natToCharsLoop fuel n acc = (bigEndianDigits n).map digitChar ++ acc := by
  induction fuel generalizing n acc with
  | zero => omega
  | succ fuel ih =>
    simp only [natToCharsLoop]
    by_cases hn : n < 10
    · simp only [if_pos hn]
      by_cases h0 : n = 0
      · subst h0; simp [bigEndianDigits]
      · have hd : Nat.digits 10 n = [n] := by
          rw [Nat.digits_def' (by norm_num : 1 < 10) (Nat.pos_of_ne_zero h0)]
          have : n % 10 = n := Nat.mod_eq_of_lt hn
          have h10 : n / 10 = 0 := Nat.div_eq_of_lt hn
          simp [this, h10]
        simp [bigEndianDigits, h0, hd]
    · simp only [if_neg hn]
      have hpos : 0 < n := by omega
      have hdiv : n / 10 < fuel := by
        have : n / 10 < n := Nat.div_lt_self hpos (by norm_num)
        omega
      rw [ih (n / 10) (digitChar (n % 10) :: acc) hdiv]
      have hnz : 1 ≤ n / 10 :=
        (Nat.one_le_div_iff (by norm_num)).mpr (by omega)
      have hrec : bigEndianDigits n = bigEndianDigits (n / 10) ++ [n % 10] := by
        unfold bigEndianDigits
        rw [if_neg (by omega), if_neg (by omega : ¬ n / 10 = 0),
          Nat.digits_def' (by norm_num : (1:Nat) < 10) hpos]
        simp
      rw [hrec]
      simp

theorem natToChars_eq (n : Nat) :
    natToChars n = (bigEndianDigits n).map digitChar := by
  simpa using natToCharsLoop_eq (n + 1) n [] (Nat.lt_succ_self n)

theorem bigEndianDigits_lt (n : Nat) : ∀ d ∈ bigEndianDigits n, d < 10 := by
  intro d hd
  unfold bigEndianDigits at hd
  split at hd
  · simp at hd; omega
  · exact Nat.digits_lt_base (by norm_num) (List.mem_reverse.mp hd)

theorem bigEndianDigits_ne_nil (n : Nat) : bigEndianDigits n ≠ [] := by
  unfold bigEndianDigits
  split
  · simp
  · simpa [List.reverse_eq_nil_iff] using Nat.digits_ne_nil_iff_ne_zero.mpr ‹_›

theorem parseNatCore_map (l : List Nat) (acc : Nat) (h : ∀ d ∈ l, d < 10) :
    parseNatCore (l.map digitChar) acc =
      some (l.foldl (fun a d => a * 10 + d) acc) := by
  induction l generalizing acc with
  | nil => rfl
  | cons d t ih =>
    have hd : d < 10 := h d (by simp)
    simp only [List.map_cons, parseNatCore, digitVal_digitChar hd, List.foldl_cons]
    exact ih _ (fun x hx => h x (by simp [hx]))

theorem foldl_reverse_eq_ofDigits (l : List Nat) (acc : Nat) :
    l.reverse.foldl (fun a d => a * 10 + d) acc =
      acc * 10 ^ l.length + Nat.ofDigits 10 l := by
  induction l generalizing acc with
  | nil => simp [Nat.ofDigits_nil]
  | cons d t ih =>
    simp only [List.reverse_cons, List.foldl_append, List.foldl_cons, List.foldl_nil,
      ih, Nat.ofDigits_cons, List.length_cons, pow_succ]
    ring

theorem foldl_bigEndianDigits (n : Nat) :
    (bigEndianDigits n).foldl (fun a d => a * 10 + d) 0 = n := by
  unfold bigEndianDigits
  split
  · simp [‹_›]
  · rw [foldl_reverse_eq_ofDigits]
    simpa using congrArg (Nat.cast : ℕ → ℕ) (Nat.ofDigits_digits 10 n)

theorem parseNat_natToChars (n : Nat) : parseNat (natToChars n) = some n := by
  rw [natToChars_eq]
  have hne : (bigEndianDigits n).map digitChar ≠ [] := by
    simpa using bigEndianDigits_ne_nil n
  rw [parseNat, if_neg (by simpa [List.isEmpty_iff] using hne),
    parseNatCore_map _ _ (bigEndianDigits_lt n), foldl_bigEndianDigits]

theorem natToChars_mem {n : Nat} {c : Char} (h : c ∈ natToChars n) :
    c ≠ ',' ∧ c ≠ '#' ∧ c.isWhitespace = false := by
  rw [natToChars_eq] at h
  obtain ⟨d, hd, rfl⟩ := List.mem_map.mp h
  have hlt := bigEndianDigits_lt n d hd
  exact ⟨digitChar_ne_comma hlt, digitChar_ne_hash hlt, digitChar_not_whitespace hlt⟩

theorem natToChars_ne_nil (n : Nat) : natToChars n ≠ [] := by
  rw [natToChars_eq]
  simpa using bigEndianDigits_ne_nil n

/-! ### Trim and split lemmas -/

theorem dropWhile_eq_self_of_head {p : Char → Bool} {l : List Char}
    (h : ∀ c, l.head? = some c → p c = false) : l.dropWhile p = l := by
  cases l with
  | nil => rfl
  | cons a l => simp [List.dropWhile_cons, h a rfl]

theorem trimChars_eq_self {l : List Char}
    (h1 : ∀ c, l.head? = some c → c.isWhitespace = false)
    (h2 : ∀ c, l.getLast? = some c → c.isWhitespace = false) :
    trimChars l = l := by
  unfold trimChars
  rw [dropWhile_eq_self_of_head h1,
    dropWhile_eq_self_of_head (by simpa [List.head?_reverse] using h2),
    List.reverse_reverse]

theorem splitOnComma_of_not_mem {l : List Char} (h : ',' ∉ l) :
    splitOnComma l = [l] := by
  induction l with
  | nil => rfl
  | cons c cs ih =>
    have hc : ¬ c = ',' := fun hc => h (by simp [hc])
    have ihs := ih (fun hm => h (by simp [hm]))
    simp only [splitOnComma, if_neg hc, ihs]

theorem splitOnComma_append {xs ys : List Char} (h : ',' ∉ xs) :
    splitOnComma (xs ++ ',' :: ys) = xs :: splitOnComma ys := by
  induction xs with
  | nil => simp [splitOnComma]
  | cons x xs ih =>
    have hx : ¬ x = ',' := fun hx => h (by simp [hx])
    have ihs := ih (fun hm => h (by simp [hm]))
    simp only [List.cons_append, splitOnComma, if_neg hx, List.append_eq, ihs]

theorem mk_data_eq (s : String) : String.mk s.data = s := by
  cases s
  rfl

/-! ### Grammar round-trip lemmas -/

theorem fromStr_formatFungible (valid : String → Bool) (a : Decimal) (r : Address)
    (hv : valid r = true)
    (hch : ∀ c ∈ r.data, c ≠ ',' ∧ c.isWhitespace = false) :
    ResourceAmount.fromStr valid (formatFungible a r) = .ok (.Fungible a r) := by
  have hdata : (formatFungible a r).data = natToChars a ++ ',' :: r.data := rfl
  have hmem : ∀ c ∈ natToChars a ++ ',' :: r.data, c.isWhitespace = false := by
    intro c hc
    rcases List.mem_append.mp hc with h | h
    · exact (natToChars_mem h).2.2
    · rcases List.mem_cons.mp h with rfl | h
      · decide
      · exact (hch c h).2
  have htrim : trimChars (natToChars a ++ ',' :: r.data) =
      natToChars a ++ ',' :: r.data := by
    refine trimChars_eq_self
      (fun c hc => hmem c (List.mem_of_mem_head? (hc ▸ Option.mem_some_self c)))
      (fun c hc => ?_)
    obtain ⟨hl, rfl⟩ := List.mem_getLast?_eq_getLast (Option.mem_def.mpr hc)
    exact hmem _ (List.getLast_mem hl)
  have hsplit : splitOnComma (natToChars a ++ ',' :: r.data) =
      [natToChars a, r.data] := by
    rw [splitOnComma_append (fun hm => (natToChars_mem hm).1 rfl),
      splitOnComma_of_not_mem (fun hm => (hch ',' hm).1 rfl)]
  rw [ResourceAmount.fromStr, hdata, htrim, hsplit]
  rw [fromStrTokens, if_pos (by simp)]
  have hlastD : ([natToChars a, r.data] : List (List Char)).getLastD [] = r.data := rfl
  have haddr : parseAddress valid r.data = some r := by
    rw [parseAddress, mk_data_eq, if_pos hv]
  rw [hlastD, haddr]
  have hheadD : ([natToChars a, r.data] : List (List Char)).headD [] = natToChars a := rfl
  have hnohash : ¬ (natToChars a).head? = some '#' := by
    intro hc
    exact (natToChars_mem (List.mem_of_mem_head? (hc ▸ Option.mem_some_self _))).2.1 rfl
  have hdec : parseDecimal (natToChars a) = some a := parseNat_natToChars a
  simp [hheadD, hnohash, hdec]

theorem trimChars_eq_self_of_all {l : List Char}
    (h : ∀ c ∈ l, c.isWhitespace = false) : trimChars l = l := by
  refine trimChars_eq_self
    (fun c hc => h c (List.mem_of_mem_head? (hc ▸ Option.mem_some_self c)))
    (fun c hc => ?_)
  obtain ⟨hl, rfl⟩ := List.mem_getLast?_eq_getLast (Option.mem_def.mpr hc)
  exact h _ (List.getLast_mem hl)

theorem splitOnComma_formatNonFungible (ids : List Nat) (r : Address)
    (hch : ∀ c ∈ r.data, c ≠ ',' ∧ c.isWhitespace = false) :
    splitOnComma (ids.foldr (fun i acc => '#' :: (natToChars i ++ ',' :: acc)) r.data) =
      (ids.map fun i => '#' :: natToChars i) ++ [r.data] := by
  induction ids with
  | nil => exact splitOnComma_of_not_mem (fun hm => (hch ',' hm).1 rfl)
  | cons i is ih =>
    have hnc : ',' ∉ '#' :: natToChars i := by
      intro hm
      rcases List.mem_cons.mp hm with h | h
      · exact absurd h (by decide)
      · exact (natToChars_mem h).1 rfl
    simp only [List.foldr_cons, List.map_cons, List.cons_append]
    rw [← List.cons_append, splitOnComma_append hnc, ih]

theorem collectNftIds_map (ids : List Nat) (s : Finset Nat)
    (hb : ∀ i ∈ ids, i < 2 ^ 128) :
    collectNftIds (ids.map fun i => '#' :: natToChars i) s =
      some (ids.foldl (fun acc i => insert i acc) s) := by
  induction ids generalizing s with
  | nil => rfl
  | cons i is ih =>
    have hu : parseU128 (natToChars i) = some i := by
      simp only [parseU128, parseNat_natToChars]
      rw [if_pos (hb i (by simp))]
    simp only [List.map_cons, collectNftIds, List.head?_cons, List.tail_cons, hu,
      List.foldl_cons, if_pos]
    exact ih _ (fun x hx => hb x (by simp [hx]))

theorem foldl_insert_eq_union (ids : List Nat) (s : Finset Nat) :
    ids.foldl (fun acc i => insert i acc) s = s ∪ ids.toFinset := by
  induction ids generalizing s with
  | nil => simp
  | cons i is ih =>
    rw [List.foldl_cons, ih]
    ext x
    simp only [List.toFinset_cons, Finset.mem_insert, Finset.mem_union]
    tauto

theorem fromStr_formatNonFungible (valid : String → Bool) (ids : List Nat)
    (r : Address) (hv : valid r = true) (hids : ids ≠ [])
    (hb : ∀ i ∈ ids, i < 2 ^ 128)
    (hch : ∀ c ∈ r.data, c ≠ ',' ∧ c.isWhitespace = false) :
    ResourceAmount.fromStr valid (formatNonFungible ids r) =
      .ok (.NonFungible ids.toFinset r) := by
  have hdata : (formatNonFungible ids r).data =
      ids.foldr (fun i acc => '#' :: (natToChars i ++ ',' :: acc)) r.data := rfl
  have hmem : ∀ l : List Nat,
      ∀ c ∈ l.foldr (fun i acc => '#' :: (natToChars i ++ ',' :: acc)) r.data,
      c.isWhitespace = false := by
    intro l
    induction l with
    | nil => exact fun c hc => (hch c hc).2
    | cons i is ih =>
      intro c hc
      simp only [List.foldr_cons] at hc
      rcases List.mem_cons.mp hc with rfl | hc2
      · decide
      · rcases List.mem_append.mp hc2 with hc3 | hc3
        · exact (natToChars_mem hc3).2.2
        · rcases List.mem_cons.mp hc3 with rfl | hc4
          · decide
          · exact ih c hc4
  have htrim := trimChars_eq_self_of_all (hmem ids)
  have hsplit := splitOnComma_formatNonFungible ids r hch
  rw [ResourceAmount.fromStr, hdata, htrim, hsplit, fromStrTokens]
  have hlen : 2 ≤ ((ids.map fun i => '#' :: natToChars i) ++ [r.data]).length := by
    have := List.length_pos.mpr hids
    simp only [List.length_append, List.length_map, List.length_cons, List.length_nil]
    omega
  rw [if_pos hlen]
  have hlastD : ((ids.map fun i => '#' :: natToChars i) ++ [r.data]).getLastD [] =
      r.data := by
    rw [List.getLastD_eq_getLast?, List.getLast?_concat]
    rfl
  have haddr : parseAddress valid r.data = some r := by
    rw [parseAddress, mk_data_eq, if_pos hv]
  rw [hlastD, haddr]
  obtain ⟨i0, is, rfl⟩ := List.exists_cons_of_ne_nil hids
  have hheadD : (((i0 :: is).map fun i => '#' :: natToChars i) ++ [r.data]).headD [] =
      '#' :: natToChars i0 := rfl
  have hhash : (('#' :: natToChars i0).head? = some '#') := rfl
  have hdrop : (((i0 :: is).map fun i => '#' :: natToChars i) ++ [r.data]).dropLast =
      (i0 :: is).map fun i => '#' :: natToChars i := List.dropLast_concat
  have hcoll := collectNftIds_map (i0 :: is) ∅ hb
  rw [foldl_insert_eq_union, Finset.empty_union] at hcoll
  have hdrop2 : (('#' :: natToChars i0) ::
        (List.map (fun i => '#' :: natToChars i) is ++ [r.data])).dropLast =
      ('#' :: natToChars i0) :: List.map (fun i => '#' :: natToChars i) is := by
    rw [← List.cons_append, List.dropLast_concat]
  have hcoll2 : collectNftIds
      (('#' :: natToChars i0) :: List.map (fun i => '#' :: natToChars i) is) ∅ =
      some (insert i0 is.toFinset) := by simpa using hcoll
  simp [hheadD, hhash, hdrop2, hcoll2]

/-! ### Grammar rejection lemmas -/

theorem collectNftIds_none (ts : List (List Char)) (s : Finset Nat)
    (h : ∃ t ∈ ts, ¬(t.head? = some '#' ∧ (parseU128 t.tail).isSome)) :
    collectNftIds ts s = none := by
  induction ts generalizing s with
  | nil => simp at h
  | cons t ts ih =>
    obtain ⟨u, hu, hbad⟩ := h
    rcases List.mem_cons.mp hu with rfl | hu2
    · by_cases hh : u.head? = some '#'
      · have hp : parseU128 u.tail = none := by
          rcases hp : parseU128 u.tail with _ | n
          · rfl
          · exact absurd ⟨hh, by simp [hp]⟩ hbad
        simp [collectNftIds, hh, hp]
      · simp [collectNftIds, hh]
    · by_cases hh : t.head? = some '#'
      · rcases hp : parseU128 t.tail with _ | n
        · simp [collectNftIds, hh, hp]
        · simp only [collectNftIds, hh, if_pos, hp]
          exact ih _ ⟨u, hu2, hbad⟩
      · simp [collectNftIds, hh]

theorem fromStrTokens_missing (valid : String → Bool) (tokens : List (List Char))
    (h : tokens.length < 2) :
    fromStrTokens valid tokens = .error .MissingResourceAddress := by
  rw [fromStrTokens, if_neg (by omega)]

theorem fromStrTokens_invalidAddress (valid : String → Bool)
    (tokens : List (List Char)) (h2 : 2 ≤ tokens.length)
    (ha : parseAddress valid (tokens.getLastD []) = none) :
    fromStrTokens valid tokens = .error .InvalidResourceAddress := by
  rw [fromStrTokens, if_pos h2, ha]

theorem fromStrTokens_invalidNftId (valid : String → Bool)
    (tokens : List (List Char)) (r : Address) (h2 : 2 ≤ tokens.length)
    (ha : parseAddress valid (tokens.getLastD []) = some r)
    (hh : (tokens.headD []).head? = some '#')
    (hbad : ∃ t ∈ tokens.dropLast,
      ¬(t.head? = some '#' ∧ (parseU128 t.tail).isSome)) :
    fromStrTokens valid tokens = .error .InvalidNftId := by
  rw [fromStrTokens, if_pos h2]
  simp only [ha]
  rw [if_pos hh, collectNftIds_none _ _ hbad]

theorem fromStrTokens_invalidAmount (valid : String → Bool)
    (tokens : List (List Char)) (r : Address) (h2 : 2 ≤ tokens.length)
    (ha : parseAddress valid (tokens.getLastD []) = some r)
    (hh : ¬ (tokens.headD []).head? = some '#')
    (hbad : tokens.length ≠ 2 ∨ parseDecimal (tokens.headD []) = none) :
    fromStrTokens valid tokens = .error .InvalidAmount := by
  rw [fromStrTokens, if_pos h2]
  simp only [ha]
  rw [if_neg hh]
  rcases hbad with hlen | hp
  · rw [if_neg hlen]
  · by_cases hlen : tokens.length = 2
    · rw [if_pos hlen, hp]
    · rw [if_neg hlen]


/-! ## Claim theorems: grammar (C6, C7) and build error reporting (C4) -/

/-- C6: Round trip of the Resource Amount grammar: for every fungible
amount `A` and valid (comma-free, whitespace-free) address `R`, parsing
`"{A},{R}"` yields `Fungible{A,R}`; for every non-empty list of 128-bit
ids and valid address `R`, parsing `"#i1,...,#ik,{R}"` yields
`NonFungible` with exactly that id set and address. -/
theorem resourceAmount_grammar_round_trip (valid : String → Bool)
    (a : Decimal) (ids : List Nat) (r : Address)
    (hv : valid r = true)
    (hch : ∀ c ∈ r.data, c ≠ ',' ∧ c.isWhitespace = false)
    (hids : ids ≠ []) (hb : ∀ i ∈ ids, i < 2 ^ 128) :
    ResourceAmount.fromStr valid (formatFungible a r) = .ok (.Fungible a r) ∧
    ResourceAmount.fromStr valid (formatNonFungible ids r) =
      .ok (.NonFungible ids.toFinset r) :=
  ⟨fromStr_formatFungible valid a r hv hch,
   fromStr_formatNonFungible valid ids r hv hids hb hch⟩

/-- Witness for C6 at `A = 5`, `R = "tokenA"`, ids `{1, 2}`. -/
theorem resourceAmount_grammar_round_trip_witness :
    ResourceAmount.fromStr exampleValid (formatFungible 5 "tokenA") =
      .ok (.Fungible 5 "tokenA") ∧
    ResourceAmount.fromStr exampleValid (formatNonFungible [1, 2] "tokenA") =
      .ok (.NonFungible ({1, 2} : Finset Nat) "tokenA") := by
  have h := resourceAmount_grammar_round_trip exampleValid 5 [1, 2] "tokenA"
    (by decide) (by decide) (by decide) (by decide)
  simpa using h

/-- C7: Rejection cases of the Resource Amount grammar: fewer than two
comma-separated tokens fail as `MissingResourceAddress`; an invalid last
token fails as `InvalidResourceAddress`; a `#`-led input with a malformed
non-last token fails as `InvalidNftId`; a non-`#` input with a token count
other than two, or with a non-decimal first token, fails as
`InvalidAmount`. -/
theorem resourceAmount_grammar_rejection (valid : String → Bool) (s : String) :
    ((splitOnComma (trimChars s.data)).length < 2 →
      ResourceAmount.fromStr valid s = .error .MissingResourceAddress) ∧
    (2 ≤ (splitOnComma (trimChars s.data)).length →
      parseAddress valid ((splitOnComma (trimChars s.data)).getLastD []) = none →
      ResourceAmount.fromStr valid s = .error .InvalidResourceAddress) ∧
    (∀ r : Address, 2 ≤ (splitOnComma (trimChars s.data)).length →
      parseAddress valid ((splitOnComma (trimChars s.data)).getLastD []) = some r →
      ((splitOnComma (trimChars s.data)).headD []).head? = some '#' →
      (∃ t ∈ (splitOnComma (trimChars s.data)).dropLast,
        ¬(t.head? = some '#' ∧ (parseU128 t.tail).isSome)) →
      ResourceAmount.fromStr valid s = .error .InvalidNftId) ∧
    (∀ r : Address, 2 ≤ (splitOnComma (trimChars s.data)).length →
      parseAddress valid ((splitOnComma (trimChars s.data)).getLastD []) = some r →
      ¬ ((splitOnComma (trimChars s.data)).headD []).head? = some '#' →
      ((splitOnComma (trimChars s.data)).length ≠ 2 ∨
        parseDecimal ((splitOnComma (trimChars s.data)).headD []) = none) →
      ResourceAmount.fromStr valid s = .error .InvalidAmount) :=
  ⟨fun h => fromStrTokens_missing valid _ h,
   fun h2 ha => fromStrTokens_invalidAddress valid _ h2 ha,
   fun r h2 ha hh hbad => fromStrTokens_invalidNftId valid _ r h2 ha hh hbad,
   fun r h2 ha hh hbad => fromStrTokens_invalidAmount valid _ r h2 ha hh hbad⟩

/-- Witness for C7 at the four inputs named by the spec: `"abc"`,
`"1,2,bad_address"`, `"#1,2,tokenA"` and `"1,2,3,tokenA"`. -/
theorem resourceAmount_grammar_rejection_witness :
    ResourceAmount.fromStr exampleValid "abc" = .error .MissingResourceAddress ∧
    ResourceAmount.fromStr exampleValid "1,2,bad_address" =
      .error .InvalidResourceAddress ∧
    ResourceAmount.fromStr exampleValid "#1,2,tokenA" = .error .InvalidNftId ∧
    ResourceAmount.fromStr exampleValid "1,2,3,tokenA" = .error .InvalidAmount :=
  ⟨(resourceAmount_grammar_rejection exampleValid "abc").1 (by decide),
   (resourceAmount_grammar_rejection exampleValid "1,2,bad_address").2.1
     (by decide) (by decide),
   (resourceAmount_grammar_rejection exampleValid "#1,2,tokenA").2.2.1
     "tokenA" (by decide) (by decide) (by decide) (by decide),
   (resourceAmount_grammar_rejection exampleValid "1,2,3,tokenA").2.2.2
     "tokenA" (by decide) (by decide) (by decide) (by decide)⟩

/-- C4: `build(signers)` on a builder with a non-empty errors sequence
fails with exactly the first recorded error, whatever was recorded
later. -/
theorem build_first_error_wins (b : Builder) (signers : List Address)
    (e : BuildTransactionError) (rest : List BuildTransactionError)
    (h : b.errors = e :: rest) :
    b.build signers = .error e := by
  rw [Builder.build, h]

/-- Witness for C4: two consecutive invalid `callFunction` calls (unknown
package, then unknown function) followed by `build` surface the error of
the first invalid call. -/
theorem build_first_error_wins_witness :
    ((Builder.mkNew.callFunction exampleValid exampleProvider
        "nopkg" "BP" "f" [] none).callFunction exampleValid exampleProvider
        "pkg1" "BP" "nofn" [] none).build [] =
      .error (.FailedToExportFunctionAbi "nopkg" "BP" "f") := by
  exact build_first_error_wins _ []
    (.FailedToExportFunctionAbi "nopkg" "BP" "f")
    [.FunctionNotFound "nofn"] (by decide)


/-! ## Argument-coercion lemmas: surplus and missing arguments (C9, C10) -/

theorem get?_take_of_lt {α : Type _} :
    ∀ (l : List α) (n i : Nat), i < n → (l.take n).get? i = l.get? i
  | [], _, _, _ => by simp
  | _ :: _, n + 1, 0, _ => rfl
  | a :: l, n + 1, i + 1, h => by
    simpa using get?_take_of_lt l n i (by omega)
  | _ :: _, 0, i, h => by omega

theorem prepareArgsAux_take (valid : String → Bool) (args : List String)
    (account : Option Address) :
    ∀ (ts : List Ty) (b : Builder) (i : Nat) (acc : List SmartValue),
    b.prepareArgsAux valid ts (args.take (i + ts.length)) account i acc =
      b.prepareArgsAux valid ts args account i acc := by
  intro ts
  induction ts with
  | nil => intro b i acc; rfl
  | cons t ts ih =>
    intro b i acc
    rw [show i + (t :: ts).length = (i + 1) + ts.length from by
      simp only [List.length_cons]; omega]
    have hget : (args.take ((i + 1) + ts.length)).get? i = args.get? i :=
      get?_take_of_lt args _ i (by omega)
    cases harg : args.get? i with
    | none => simp only [Builder.prepareArgsAux, hget, harg]
    | some arg =>
      simp only [Builder.prepareArgsAux, hget, harg]
      rcases b.prepareOne valid i t arg account with ⟨res, b1⟩
      cases res with
      | error e => rfl
      | ok v => exact ih b1 (i + 1) (acc ++ [v])

/-- C10: Surplus raw arguments are ignored: coercion of a declared
parameter list against a raw argument list inspects only the first
`types.length` arguments; truncating the arguments to that length changes
neither the result nor the emitted instructions. -/
theorem prepareArgs_ignores_surplus_args (valid : String → Bool) (b : Builder)
    (types : List Ty) (args : List String) (account : Option Address) :
    b.prepareArgs valid types (args.take types.length) account =
      b.prepareArgs valid types args account := by
  have h := prepareArgsAux_take valid args account types b 0 []
  simpa using h

theorem prepareArgsAux_append (valid : String → Bool) (args : List String)
    (account : Option Address) :
    ∀ (ts1 ts2 : List Ty) (b : Builder) (i : Nat) (acc : List SmartValue),
    b.prepareArgsAux valid (ts1 ++ ts2) args account i acc =
      match b.prepareArgsAux valid ts1 args account i acc with
      | (.ok vs, b1) => b1.prepareArgsAux valid ts2 args account (i + ts1.length) vs
      | (.error e, b1) => (.error e, b1) := by
  intro ts1
  induction ts1 with
  | nil => intro ts2 b i acc; simp [Builder.prepareArgsAux]
  | cons t ts1 ih =>
    intro ts2 b i acc
    cases harg : args.get? i with
    | none => simp only [List.cons_append, Builder.prepareArgsAux, harg]
    | some arg =>
      simp only [List.cons_append, Builder.prepareArgsAux, harg]
      rcases b.prepareOne valid i t arg account with ⟨res, b1⟩
      cases res with
      | error e => rfl
      | ok v =>
        have harith : (i + 1) + ts1.length = i + (t :: ts1).length := by
          simp only [List.length_cons]; omega
        exact harith ▸ ih ts2 b1 (i + 1) (acc ++ [v])

/-- Amended C9: if every supplied raw argument coerces successfully
against the corresponding declared parameter, then supplying fewer raw
arguments than declared parameters fails with
`MissingArgument(m, types[m])` where `m` is the number supplied. -/
theorem prepareArgs_missing_argument (valid : String → Bool) (b : Builder)
    (types : List Ty) (args : List String) (account : Option Address)
    (vs : List SmartValue) (b1 : Builder)
    (hlen : args.length < types.length)
    (hpre : b.prepareArgs valid (types.take args.length) args account =
      (.ok vs, b1)) :
    (b.prepareArgs valid types args account).1 =
      .error (.MissingArgument args.length (types.getD args.length (.Other 0))) := by
  rcases hdrop : types.drop args.length with _ | ⟨t, rest⟩
  · exact absurd (List.drop_eq_nil_iff.mp hdrop) (by omega)
  have hgetD : types.getD args.length (.Other 0) = t := by
    rw [List.getD_eq_getElem?_getD, ← List.head?_drop, hdrop]
    rfl
  have hsplit : types = types.take args.length ++ (t :: rest) := by
    rw [← hdrop, List.take_append_drop]
  rw [Builder.prepareArgs] at hpre ⊢
  conv_lhs => rw [hsplit]
  rw [prepareArgsAux_append, hpre]
  have hlen2 : (types.take args.length).length = args.length := by
    rw [List.length_take]
    omega
  simp only [hlen2, Nat.zero_add]
  have hnone : args.get? args.length = none :=
    List.get?_eq_none.mpr (le_refl _)
  simp only [Builder.prepareArgsAux, hnone, hgetD]

/-- Counterexample to C9 as stated: with two declared `Decimal` parameters
and the single non-decimal raw argument `"x"`, coercion fails with
`FailedToParse(0, ...)`, not with `MissingArgument(1, ...)`. -/
theorem prepareArgs_missing_argument_counterexample :
    (Builder.mkNew.prepareArgs exampleValid
        [Ty.Custom "Decimal", Ty.Custom "Decimal"] ["x"] none).1 =
      .error (.FailedToParse 0 (Ty.Custom "Decimal") "x") ∧
    (Builder.mkNew.prepareArgs exampleValid
        [Ty.Custom "Decimal", Ty.Custom "Decimal"] ["x"] none).1 ≠
      .error (.MissingArgument 1 (Ty.Custom "Decimal")) := by
  decide

/-- Witness for the amended C9: two declared parameters, one valid raw
argument, fails with `MissingArgument(1, secondParamType)`. -/
theorem prepareArgs_missing_argument_witness :
    (Builder.mkNew.prepareArgs exampleValid
        [Ty.Custom "Decimal", Ty.Custom "Decimal"] ["10"] none).1 =
      .error (.MissingArgument 1
        (([Ty.Custom "Decimal", Ty.Custom "Decimal"] : List Ty).getD 1 (.Other 0))) :=
  prepareArgs_missing_argument exampleValid Builder.mkNew
    [Ty.Custom "Decimal", Ty.Custom "Decimal"] ["10"] none
    [SmartValue.ofDecimal 10] Builder.mkNew (by decide) (by decide)

theorem withdrawFromAccount_eq (b : Builder) (spec : ResourceAmount)
    (account : Address) :
    b.withdrawFromAccount spec account = b.addInstruction (withdrawInstr spec account) := by
  cases spec <;> rfl

theorem prepareCustomTy_decimal (b : Builder) (valid : String → Bool)
    (i : Nat) (ty : Ty) (arg : String) (account : Option Address) (d : Decimal)
    (hparse : parseDecimal arg.data = some d) :
    b.prepareCustomTy valid i ty arg "Decimal" account =
      (.ok (SmartValue.ofDecimal d), b) := by
  rw [Builder.prepareCustomTy, if_pos (by decide : ("Decimal" = SCRYPTO_NAME_DECIMAL)), prepareBasicTy, hparse]

theorem prepareCustomTy_bucket (b : Builder) (valid : String → Bool)
    (i : Nat) (ty : Ty) (arg : String) (name : String) (account : Option Address)
    (spec : ResourceAmount)
    (hname : name = SCRYPTO_NAME_BID ∨ name = SCRYPTO_NAME_BUCKET)
    (hspec : ResourceAmount.fromStr valid arg = .ok spec) :
    b.prepareCustomTy valid i ty arg name account =
      (.ok (SmartValue.ofBid b.allocator.bidCounter),
       { allocator := ⟨b.allocator.bidCounter + 1, b.allocator.ridCounter⟩,
         reservations := b.reservations ++ [Instruction.DeclareTempBucket],
         instructions := (b.instructions ++
           (match account with
            | some acct => [withdrawInstr spec acct]
            | none => [])) ++
           [Instruction.TakeFromContext spec.amount spec.resource_address
             b.allocator.bidCounter],
         errors := b.errors }) := by
  have hp : parseResourceSpec valid i ty arg = .ok spec := by
    rw [parseResourceSpec, hspec]
  rcases hname with rfl | rfl <;>
  · rw [Builder.prepareCustomTy, if_neg (by decide), if_neg (by decide),
      if_neg (by decide), if_neg (by decide), if_pos (by decide)]
    simp only [hp]
    cases account with
    | none => simp [Builder.declareBucket, Builder.takeFromContext,
        Builder.addInstruction, IdAllocator.newBid]
    | some acct => simp [withdrawFromAccount_eq, Builder.declareBucket,
        Builder.takeFromContext, Builder.addInstruction, IdAllocator.newBid]

theorem prepareCustomTy_bucketRef (b : Builder) (valid : String → Bool)
    (i : Nat) (ty : Ty) (arg : String) (name : String) (account : Option Address)
    (spec : ResourceAmount)
    (hname : name = SCRYPTO_NAME_RID ∨ name = SCRYPTO_NAME_BUCKET_REF)
    (hspec : ResourceAmount.fromStr valid arg = .ok spec) :
    b.prepareCustomTy valid i ty arg name account =
      (.ok (SmartValue.ofRid b.allocator.ridCounter),
       { allocator := ⟨b.allocator.bidCounter, b.allocator.ridCounter + 1⟩,
         reservations := b.reservations ++ [Instruction.DeclareTempBucketRef],
         instructions := (b.instructions ++
           (match account with
            | some acct => [withdrawInstr spec acct]
            | none => [])) ++
           [Instruction.BorrowFromContext spec.amount spec.resource_address
             b.allocator.ridCounter],
         errors := b.errors }) := by
  have hp : parseResourceSpec valid i ty arg = .ok spec := by
    rw [parseResourceSpec, hspec]
  rcases hname with rfl | rfl <;>
  · rw [Builder.prepareCustomTy, if_neg (by decide), if_neg (by decide),
      if_neg (by decide), if_neg (by decide), if_neg (by decide),
      if_pos (by decide)]
    simp only [hp]
    cases account with
    | none => simp [Builder.declareBucketRef, Builder.borrowFromContext,
        Builder.addInstruction, IdAllocator.newRid]
    | some acct => simp [withdrawFromAccount_eq, Builder.declareBucketRef,
        Builder.borrowFromContext, Builder.addInstruction, IdAllocator.newRid]


/-- C2: End-to-end scenario: calling a function whose ABI declares
`(Decimal, Bucket)` with raw args `["10", "5,<token>"]` and no account,
then building, yields the program
`[DeclareBucket, TakeFromContext{5, token, 0}, CallFunction(.., [10, bucket 0]), End]`:
one reservation, the fill preceding the call, the call carrying the
literal `10` and a reference to bucket id 0. -/
theorem callFunction_decimal_bucket_no_account
    (valid : String → Bool) (prov : AbiProvider) (abi : Blueprint)
    (pkg : Address) (bp fn : String) (token : Address) (signers : List Address)
    (habi : prov.exportAbi pkg bp = some abi)
    (hfind : abi.functions.find? (fun f => f.name = fn) =
      some ⟨fn, [Ty.Custom "Decimal", Ty.Custom "Bucket"]⟩)
    (hv : valid token = true)
    (hch : ∀ c ∈ token.data, c ≠ ',' ∧ c.isWhitespace = false) :
    (Builder.mkNew.callFunction valid prov pkg bp fn
        ["10", formatFungible 5 token] none).build signers =
      .ok [Instruction.DeclareTempBucket,
           Instruction.TakeFromContext 5 token 0,
           Instruction.CallFunction pkg bp fn
             [SmartValue.ofDecimal 10, SmartValue.ofBid 0],
           Instruction.End signers] := by
  have hspec := fromStr_formatFungible valid 5 token hv hch
  have hd : parseDecimal ("10" : String).data = some (10 : Nat) := by decide
  have h0 := prepareCustomTy_decimal Builder.mkNew valid 0 (Ty.Custom "Decimal")
    "10" none 10 hd
  have h1 := prepareCustomTy_bucket Builder.mkNew valid 1 (Ty.Custom "Bucket")
    (formatFungible 5 token) "Bucket" none (.Fungible 5 token) (Or.inr rfl) hspec
  rw [Builder.callFunction]
  simp only [habi]
  rw [findFunctionAbi]
  simp only [hfind]
  rw [Builder.prepareArgs]
  simp only [Builder.prepareArgsAux, List.get?_cons_zero, List.get?_cons_succ,
    Builder.prepareOne, h0, h1]
  simp [Builder.addInstruction, Builder.build, ResourceAmount.amount,
    ResourceAmount.resource_address, Builder.mkNew, IdAllocator.mkNew]


/-- Witness for C2 on the example fixtures. -/
theorem callFunction_decimal_bucket_no_account_witness :
    (Builder.mkNew.callFunction exampleValid exampleProvider "pkg1" "BP" "f"
        ["10", formatFungible 5 "tokenA"] none).build [] =
      .ok [Instruction.DeclareTempBucket,
           Instruction.TakeFromContext 5 "tokenA" 0,
           Instruction.CallFunction "pkg1" "BP" "f"
             [SmartValue.ofDecimal 10, SmartValue.ofBid 0],
           Instruction.End []] :=
  callFunction_decimal_bucket_no_account exampleValid exampleProvider
    { functions := [⟨"f", [Ty.Custom "Decimal", Ty.Custom "Bucket"]⟩,
                    ⟨"g", [Ty.Custom "Bucket", Ty.Custom "Decimal"]⟩],
      methods := [⟨"m", [Ty.Custom "Decimal", Ty.Custom "Bucket"]⟩] }
    "pkg1" "BP" "f" "tokenA" [] (by decide) (by decide) (by decide) (by decide)

/-- Amended C5: with an account supplied, the finalized Program contains
the withdraw `CallMethod` immediately before the `TakeFromContext` fill;
the `DeclareBucket` reservation is hoisted to the front of the Program and
therefore precedes the withdraw (in emission order the withdraw is emitted
before the declaration).  For a non-fungible Resource Amount the withdraw
is `withdraw_nfts` and carries the id set. -/
theorem callFunction_decimal_bucket_with_account
    (valid : String → Bool) (prov : AbiProvider) (abi : Blueprint)
    (pkg : Address) (bp fn : String) (token acct : Address)
    (ids : List Nat) (signers : List Address)
    (habi : prov.exportAbi pkg bp = some abi)
    (hfind : abi.functions.find? (fun f => f.name = fn) =
      some ⟨fn, [Ty.Custom "Decimal", Ty.Custom "Bucket"]⟩)
    (hv : valid token = true)
    (hch : ∀ c ∈ token.data, c ≠ ',' ∧ c.isWhitespace = false)
    (hids : ids ≠ []) (hb : ∀ i ∈ ids, i < 2 ^ 128) :
    (Builder.mkNew.callFunction valid prov pkg bp fn
        ["10", formatFungible 5 token] (some acct)).build signers =
      .ok [Instruction.DeclareTempBucket,
           Instruction.CallMethod acct "withdraw"
             [SmartValue.ofDecimal 5, SmartValue.ofAddress token],
           Instruction.TakeFromContext 5 token 0,
           Instruction.CallFunction pkg bp fn
             [SmartValue.ofDecimal 10, SmartValue.ofBid 0],
           Instruction.End signers] ∧
    (Builder.mkNew.callFunction valid prov pkg bp fn
        ["10", formatNonFungible ids token] (some acct)).build signers =
      .ok [Instruction.DeclareTempBucket,
           Instruction.CallMethod acct "withdraw_nfts"
             [SmartValue.ofU128Set ids.toFinset, SmartValue.ofAddress token],
           Instruction.TakeFromContext ids.toFinset.card token 0,
           Instruction.CallFunction pkg bp fn
             [SmartValue.ofDecimal 10, SmartValue.ofBid 0],
           Instruction.End signers] := by
  have hd : parseDecimal ("10" : String).data = some (10 : Nat) := by decide
  have h0 := prepareCustomTy_decimal Builder.mkNew valid 0 (Ty.Custom "Decimal")
    "10" (some acct) 10 hd
  constructor
  · have hspec := fromStr_formatFungible valid 5 token hv hch
    have h1 := prepareCustomTy_bucket Builder.mkNew valid 1 (Ty.Custom "Bucket")
      (formatFungible 5 token) "Bucket" (some acct) (.Fungible 5 token)
      (Or.inr rfl) hspec
    rw [Builder.callFunction]
    simp only [habi]
    rw [findFunctionAbi]
    simp only [hfind]
    rw [Builder.prepareArgs]
    simp only [Builder.prepareArgsAux, List.get?_cons_zero, List.get?_cons_succ,
      Builder.prepareOne, h0, h1]
    simp [Builder.addInstruction, Builder.build, ResourceAmount.amount,
      ResourceAmount.resource_address, Builder.mkNew, IdAllocator.mkNew,
      withdrawInstr]
  · have hspec := fromStr_formatNonFungible valid ids token hv hids hb hch
    have h1 := prepareCustomTy_bucket Builder.mkNew valid 1 (Ty.Custom "Bucket")
      (formatNonFungible ids token) "Bucket" (some acct)
      (.NonFungible ids.toFinset token) (Or.inr rfl) hspec
    rw [Builder.callFunction]
    simp only [habi]
    rw [findFunctionAbi]
    simp only [hfind]
    rw [Builder.prepareArgs]
    simp only [Builder.prepareArgsAux, List.get?_cons_zero, List.get?_cons_succ,
      Builder.prepareOne, h0, h1]
    simp [Builder.addInstruction, Builder.build, ResourceAmount.amount,
      ResourceAmount.resource_address, Builder.mkNew, IdAllocator.mkNew,
      withdrawInstr]

/-- Witness for amended C5 on the example fixtures. -/
theorem callFunction_decimal_bucket_with_account_witness :
    (Builder.mkNew.callFunction exampleValid exampleProvider "pkg1" "BP" "f"
        ["10", formatFungible 5 "tokenA"] (some "acct1")).build [] =
      .ok [Instruction.DeclareTempBucket,
           Instruction.CallMethod "acct1" "withdraw"
             [SmartValue.ofDecimal 5, SmartValue.ofAddress "tokenA"],
           Instruction.TakeFromContext 5 "tokenA" 0,
           Instruction.CallFunction "pkg1" "BP" "f"
             [SmartValue.ofDecimal 10, SmartValue.ofBid 0],
           Instruction.End []] := by
  have h := callFunction_decimal_bucket_with_account exampleValid exampleProvider
    { functions := [⟨"f", [Ty.Custom "Decimal", Ty.Custom "Bucket"]⟩,
                    ⟨"g", [Ty.Custom "Bucket", Ty.Custom "Decimal"]⟩],
      methods := [⟨"m", [Ty.Custom "Decimal", Ty.Custom "Bucket"]⟩] }
    "pkg1" "BP" "f" "tokenA" "acct1" [7] [] (by decide) (by decide) (by decide)
    (by decide) (by decide) (by decide)
  exact h.1

/-- Counterexample to C5 as stated: in the finalized Program the withdraw
`CallMethod` does not appear before the `DeclareBucket` of the pair — the
hoisted `DeclareTempBucket` is at index 0 and the withdraw at index 1. -/
theorem callFunction_withdraw_position_counterexample :
    (Builder.mkNew.callFunction exampleValid exampleProvider "pkg1" "BP" "f"
        ["10", "5,tokenA"] (some "acct1")).build [] =
      .ok [Instruction.DeclareTempBucket,
           Instruction.CallMethod "acct1" "withdraw"
             [SmartValue.ofDecimal 5, SmartValue.ofAddress "tokenA"],
           Instruction.TakeFromContext 5 "tokenA" 0,
           Instruction.CallFunction "pkg1" "BP" "f"
             [SmartValue.ofDecimal 10, SmartValue.ofBid 0],
           Instruction.End []] ∧
    ¬ (([Instruction.DeclareTempBucket,
         Instruction.CallMethod "acct1" "withdraw"
           [SmartValue.ofDecimal 5, SmartValue.ofAddress "tokenA"],
         Instruction.TakeFromContext 5 "tokenA" 0,
         Instruction.CallFunction "pkg1" "BP" "f"
           [SmartValue.ofDecimal 10, SmartValue.ofBid 0],
         Instruction.End []] : List Instruction).indexOf
          (Instruction.CallMethod "acct1" "withdraw"
            [SmartValue.ofDecimal 5, SmartValue.ofAddress "tokenA"]) <
        ([Instruction.DeclareTempBucket,
          Instruction.CallMethod "acct1" "withdraw"
            [SmartValue.ofDecimal 5, SmartValue.ofAddress "tokenA"],
          Instruction.TakeFromContext 5 "tokenA" 0,
          Instruction.CallFunction "pkg1" "BP" "f"
            [SmartValue.ofDecimal 10, SmartValue.ofBid 0],
          Instruction.End []] : List Instruction).indexOf
          Instruction.DeclareTempBucket) := by
  constructor
  · decide
  · decide

theorem StepExt.refl (b : Builder) : StepExt b b where
  errors_eq := rfl
  bid_mono := le_refl _
  rid_mono := le_refl _
  res_ext := ⟨[], by simp⟩
  body_ext := ⟨[], by simp⟩

theorem StepExt.trans {a b c : Builder} (h1 : StepExt a b) (h2 : StepExt b c) :
    StepExt a c where
  errors_eq := h2.errors_eq.trans h1.errors_eq
  bid_mono := h1.bid_mono.trans h2.bid_mono
  rid_mono := h1.rid_mono.trans h2.rid_mono
  res_ext := by
    obtain ⟨l1, he1, hd1, hb1, hr1⟩ := h1.res_ext
    obtain ⟨l2, he2, hd2, hb2, hr2⟩ := h2.res_ext
    refine ⟨l1 ++ l2, by rw [he2, he1, List.append_assoc], ?_, ?_, ?_⟩
    · intro inst hinst
      rcases List.mem_append.mp hinst with h | h
      · exact hd1 inst h
      · exact hd2 inst h
    · rw [List.count_append]; omega
    · rw [List.count_append]; omega
  body_ext := by
    obtain ⟨l1, he1, hp1⟩ := h1.body_ext
    obtain ⟨l2, he2, hp2⟩ := h2.body_ext
    refine ⟨l1 ++ l2, by rw [he2, he1, List.append_assoc], ?_⟩
    intro inst hinst
    rcases List.mem_append.mp hinst with h | h
    · obtain ⟨hm, hb, hr⟩ := hp1 inst h
      exact ⟨hm, fun n hn => lt_of_lt_of_le (hb n hn) h2.bid_mono,
             fun n hn => lt_of_lt_of_le (hr n hn) h2.rid_mono⟩
    · exact hp2 inst h

/-- A `StepExt` extension of a well-formed builder is well-formed. -/
theorem StepExt.wf {b b1 : Builder} (h : StepExt b b1) (hwf : WF b) : WF b1 where
  res_decl := by
    obtain ⟨l, he, hd, _, _⟩ := h.res_ext
    rw [he]
    intro inst hinst
    rcases List.mem_append.mp hinst with hm | hm
    · exact hwf.res_decl inst hm
    · exact hd inst hm
  bid_count := by
    obtain ⟨l, he, _, hb, _⟩ := h.res_ext
    rw [he, List.count_append, hwf.bid_count]
    omega
  rid_count := by
    obtain ⟨l, he, _, _, hr⟩ := h.res_ext
    rw [he, List.count_append, hwf.rid_count]
    omega
  body_not_decl := by
    obtain ⟨l, he, hp⟩ := h.body_ext
    rw [he]
    intro inst hinst
    rcases List.mem_append.mp hinst with hm | hm
    · exact hwf.body_not_decl inst hm
    · have := (hp inst hm).1
      constructor <;> rintro rfl <;> simp [Instruction.isResourceMove] at this
  body_bids := by
    obtain ⟨l, he, hp⟩ := h.body_ext
    rw [he]
    intro inst hinst n hn
    rcases List.mem_append.mp hinst with hm | hm
    · exact lt_of_lt_of_le (hwf.body_bids inst hm n hn) h.bid_mono
    · exact (hp inst hm).2.1 n hn
  body_rids := by
    obtain ⟨l, he, hp⟩ := h.body_ext
    rw [he]
    intro inst hinst n hn
    rcases List.mem_append.mp hinst with hm | hm
    · exact lt_of_lt_of_le (hwf.body_rids inst hm n hn) h.rid_mono
    · exact (hp inst hm).2.2 n hn


theorem prepareBasicTy_ok {α : Type _} (parse : List Char → Option α)
    (enc : α → SmartValue) (i : Nat) (ty : Ty) (arg : String) (v : SmartValue)
    (h : prepareBasicTy parse enc i ty arg = .ok v) : ∃ x, v = enc x := by
  rw [prepareBasicTy] at h
  rcases hp : parse arg.data with _ | x <;> simp [hp] at h
  exact ⟨x, h.symm⟩

theorem prepareCustomTy_bucket_err (b : Builder) (valid : String → Bool)
    (i : Nat) (ty : Ty) (arg : String) (name : String) (account : Option Address)
    (e : ParseResourceAmountError)
    (hname : name = SCRYPTO_NAME_BID ∨ name = SCRYPTO_NAME_BUCKET)
    (hspec : ResourceAmount.fromStr valid arg = .error e) :
    b.prepareCustomTy valid i ty arg name account =
      (.error (.FailedToParse i ty arg), b) := by
  have hp : parseResourceSpec valid i ty arg = .error (.FailedToParse i ty arg) := by
    rw [parseResourceSpec, hspec]
  rcases hname with rfl | rfl <;>
  · rw [Builder.prepareCustomTy, if_neg (by decide), if_neg (by decide),
      if_neg (by decide), if_neg (by decide), if_pos (by decide)]
    simp only [hp]

theorem prepareCustomTy_bucketRef_err (b : Builder) (valid : String → Bool)
    (i : Nat) (ty : Ty) (arg : String) (name : String) (account : Option Address)
    (e : ParseResourceAmountError)
    (hname : name = SCRYPTO_NAME_RID ∨ name = SCRYPTO_NAME_BUCKET_REF)
    (hspec : ResourceAmount.fromStr valid arg = .error e) :
    b.prepareCustomTy valid i ty arg name account =
      (.error (.FailedToParse i ty arg), b) := by
  have hp : parseResourceSpec valid i ty arg = .error (.FailedToParse i ty arg) := by
    rw [parseResourceSpec, hspec]
  rcases hname with rfl | rfl <;>
  · rw [Builder.prepareCustomTy, if_neg (by decide), if_neg (by decide),
      if_neg (by decide), if_neg (by decide), if_neg (by decide),
      if_pos (by decide)]
    simp only [hp]

/-- The builder produced by a successful bucket coercion extends the input
builder by a `StepExt`. -/
theorem stepExt_bucket_shape (b : Builder) (spec : ResourceAmount)
    (account : Option Address) :
    StepExt b
      { allocator := ⟨b.allocator.bidCounter + 1, b.allocator.ridCounter⟩,
        reservations := b.reservations ++ [Instruction.DeclareTempBucket],
        instructions := (b.instructions ++
          (match account with
           | some acct => [withdrawInstr spec acct]
           | none => [])) ++
          [Instruction.TakeFromContext spec.amount spec.resource_address
            b.allocator.bidCounter],
        errors := b.errors } where
  errors_eq := rfl
  bid_mono := Nat.le_succ _
  rid_mono := le_refl _
  res_ext := by
    refine ⟨[Instruction.DeclareTempBucket], rfl, by simp, ?_, ?_⟩ <;>
      simp [List.count_cons, List.count_nil]
  body_ext := by
    refine ⟨(match account with
             | some acct => [withdrawInstr spec acct]
             | none => []) ++
            [Instruction.TakeFromContext spec.amount spec.resource_address
              b.allocator.bidCounter], by rw [List.append_assoc], ?_⟩
    intro inst hinst
    rcases List.mem_append.mp hinst with hm | hm
    · cases account with
      | none => simp at hm
      | some acct =>
        simp only [List.mem_singleton] at hm
        subst hm
        refine ⟨?_, ?_, ?_⟩ <;>
          cases spec <;>
            simp [withdrawInstr, Instruction.isResourceMove, Instruction.bids,
              Instruction.rids, SmartValue.bids, SmartValue.rids]
    · simp only [List.mem_singleton] at hm
      subst hm
      refine ⟨rfl, ?_, ?_⟩ <;>
        simp [Instruction.bids, Instruction.rids]

/-- The builder produced by a successful bucket-ref coercion extends the
input builder by a `StepExt`. -/
theorem stepExt_bucketRef_shape (b : Builder) (spec : ResourceAmount)
    (account : Option Address) :
    StepExt b
      { allocator := ⟨b.allocator.bidCounter, b.allocator.ridCounter + 1⟩,
        reservations := b.reservations ++ [Instruction.DeclareTempBucketRef],
        instructions := (b.instructions ++
          (match account with
           | some acct => [withdrawInstr spec acct]
           | none => [])) ++
          [Instruction.BorrowFromContext spec.amount spec.resource_address
            b.allocator.ridCounter],
        errors := b.errors } where
  errors_eq := rfl
  bid_mono := le_refl _
  rid_mono := Nat.le_succ _
  res_ext := by
    refine ⟨[Instruction.DeclareTempBucketRef], rfl, by simp, ?_, ?_⟩ <;>
      simp [List.count_cons, List.count_nil]
  body_ext := by
    refine ⟨(match account with
             | some acct => [withdrawInstr spec acct]
             | none => []) ++
            [Instruction.BorrowFromContext spec.amount spec.resource_address
              b.allocator.ridCounter], by rw [List.append_assoc], ?_⟩
    intro inst hinst
    rcases List.mem_append.mp hinst with hm | hm
    · cases account with
      | none => simp at hm
      | some acct =>
        simp only [List.mem_singleton] at hm
        subst hm
        refine ⟨?_, ?_, ?_⟩ <;>
          cases spec <;>
            simp [withdrawInstr, Instruction.isResourceMove, Instruction.bids,
              Instruction.rids, SmartValue.bids, SmartValue.rids]
    · simp only [List.mem_singleton] at hm
      subst hm
      refine ⟨rfl, ?_, ?_⟩ <;>
        simp [Instruction.bids, Instruction.rids]


/-- Coercing one custom-kind parameter yields a `StepExt` extension, and a
successful result references only already-allocated ids. -/
theorem prepareCustomTy_stepExt (b : Builder) (valid : String → Bool)
    (i : Nat) (t : Ty) (arg : String) (name : String) (account : Option Address)
    (res : Except BuildArgsError SmartValue) (b1 : Builder)
    (h : b.prepareCustomTy valid i t arg name account = (res, b1)) :
    StepExt b b1 ∧ ∀ v, res = .ok v →
      (∀ n ∈ v.bids, n < b1.allocator.bidCounter) ∧
      (∀ n ∈ v.rids, n < b1.allocator.ridCounter) := by
  by_cases h5 : name = SCRYPTO_NAME_BID ∨ name = SCRYPTO_NAME_BUCKET
  · rcases hq : ResourceAmount.fromStr valid arg with e | spec
    · rw [prepareCustomTy_bucket_err b valid i t arg name account e h5 hq] at h
      cases h
      exact ⟨StepExt.refl b, fun v hv => by simp at hv⟩
    · rw [prepareCustomTy_bucket b valid i t arg name account spec h5 hq] at h
      cases h
      refine ⟨stepExt_bucket_shape b spec account, fun v hv => ?_⟩
      simp only [Except.ok.injEq] at hv
      subst hv
      exact ⟨by simp [SmartValue.bids], by simp [SmartValue.rids]⟩
  by_cases h6 : name = SCRYPTO_NAME_RID ∨ name = SCRYPTO_NAME_BUCKET_REF
  · rcases hq : ResourceAmount.fromStr valid arg with e | spec
    · rw [prepareCustomTy_bucketRef_err b valid i t arg name account e h6 hq] at h
      cases h
      exact ⟨StepExt.refl b, fun v hv => by simp at hv⟩
    · rw [prepareCustomTy_bucketRef b valid i t arg name account spec h6 hq] at h
      cases h
      refine ⟨stepExt_bucketRef_shape b spec account, fun v hv => ?_⟩
      simp only [Except.ok.injEq] at hv
      subst hv
      exact ⟨by simp [SmartValue.bids], by simp [SmartValue.rids]⟩
  -- remaining kinds leave the builder untouched
  rw [Builder.prepareCustomTy] at h
  by_cases h1 : name = SCRYPTO_NAME_DECIMAL
  · rw [if_pos h1] at h
    cases h
    refine ⟨StepExt.refl b, fun v hv => ?_⟩
    obtain ⟨x, rfl⟩ := prepareBasicTy_ok _ _ _ _ _ _ hv
    exact ⟨by simp [SmartValue.bids], by simp [SmartValue.rids]⟩
  rw [if_neg h1] at h
  by_cases h2 : name = SCRYPTO_NAME_BIG_DECIMAL
  · rw [if_pos h2] at h
    cases h
    refine ⟨StepExt.refl b, fun v hv => ?_⟩
    obtain ⟨x, rfl⟩ := prepareBasicTy_ok _ _ _ _ _ _ hv
    exact ⟨by simp [SmartValue.bids], by simp [SmartValue.rids]⟩
  rw [if_neg h2] at h
  by_cases h3 : name = SCRYPTO_NAME_ADDRESS
  · rw [if_pos h3] at h
    cases h
    refine ⟨StepExt.refl b, fun v hv => ?_⟩
    obtain ⟨x, rfl⟩ := prepareBasicTy_ok _ _ _ _ _ _ hv
    exact ⟨by simp [SmartValue.bids], by simp [SmartValue.rids]⟩
  rw [if_neg h3] at h
  by_cases h4 : name = SCRYPTO_NAME_H256
  · rw [if_pos h4] at h
    cases h
    refine ⟨StepExt.refl b, fun v hv => ?_⟩
    obtain ⟨x, rfl⟩ := prepareBasicTy_ok _ _ _ _ _ _ hv
    exact ⟨by simp [SmartValue.bids], by simp [SmartValue.rids]⟩
  rw [if_neg h4, if_neg h5, if_neg h6] at h
  cases h
  exact ⟨StepExt.refl b, fun v hv => by simp at hv⟩

/-- Coercing one parameter of any declared kind yields a `StepExt`
extension, and a successful value references only allocated ids. -/
theorem prepareOne_stepExt (b : Builder) (valid : String → Bool) (i : Nat)
    (t : Ty) (arg : String) (account : Option Address)
    (res : Except BuildArgsError SmartValue) (b1 : Builder)
    (h : b.prepareOne valid i t arg account = (res, b1)) :
    StepExt b b1 ∧ ∀ v, res = .ok v →
      (∀ n ∈ v.bids, n < b1.allocator.bidCounter) ∧
      (∀ n ∈ v.rids, n < b1.allocator.ridCounter) := by
  cases t <;> simp only [Builder.prepareOne] at h
  case Custom name => exact prepareCustomTy_stepExt b valid i _ arg name account res b1 h
  case Other tag =>
    cases h
    exact ⟨StepExt.refl b, fun v hv => by simp at hv⟩
  case String =>
    cases h
    exact ⟨StepExt.refl b, fun v hv => by
      simp only [Except.ok.injEq] at hv
      subst hv
      exact ⟨by simp [SmartValue.bids], by simp [SmartValue.rids]⟩⟩
  all_goals {
    cases h
    refine ⟨StepExt.refl b, fun v hv => ?_⟩
    obtain ⟨x, rfl⟩ := prepareBasicTy_ok _ _ _ _ _ _ hv
    exact ⟨by simp [SmartValue.bids], by simp [SmartValue.rids]⟩ }


/-- The whole argument-coercion loop yields a `StepExt` extension; on
success every encoded value references only allocated ids. -/
theorem prepareArgsAux_stepExt (valid : String → Bool) (args : List String)
    (account : Option Address) :
    ∀ (ts : List Ty) (b : Builder) (i : Nat) (acc : List SmartValue)
      (res : Except BuildArgsError (List SmartValue)) (b1 : Builder),
    b.prepareArgsAux valid ts args account i acc = (res, b1) →
    StepExt b b1 ∧ ∀ vs, res = .ok vs →
      (∀ v ∈ acc, (∀ n ∈ SmartValue.bids v, n < b.allocator.bidCounter) ∧
        (∀ n ∈ SmartValue.rids v, n < b.allocator.ridCounter)) →
      ∀ v ∈ vs, (∀ n ∈ SmartValue.bids v, n < b1.allocator.bidCounter) ∧
        (∀ n ∈ SmartValue.rids v, n < b1.allocator.ridCounter) := by
  intro ts
  induction ts with
  | nil =>
    intro b i acc res b1 h
    rw [Builder.prepareArgsAux] at h
    cases h
    refine ⟨StepExt.refl b, fun vs hvs hacc => ?_⟩
    simp only [Except.ok.injEq] at hvs
    subst hvs
    exact hacc
  | cons t ts ih =>
    intro b i acc res b1 h
    cases harg : args.get? i with
    | none =>
      simp only [Builder.prepareArgsAux, harg] at h
      cases h
      exact ⟨StepExt.refl b, fun vs hvs => by simp at hvs⟩
    | some arg =>
      simp only [Builder.prepareArgsAux, harg] at h
      rcases hone : b.prepareOne valid i t arg account with ⟨res0, bmid⟩
      rw [hone] at h
      obtain ⟨hext0, hval0⟩ := prepareOne_stepExt b valid i t arg account res0 bmid hone
      cases res0 with
      | error e =>
        cases h
        exact ⟨hext0, fun vs hvs => by simp at hvs⟩
      | ok v =>
        obtain ⟨hext1, hval1⟩ := ih bmid (i + 1) (acc ++ [v]) res b1 h
        refine ⟨hext0.trans hext1, fun vs hvs hacc => ?_⟩
        refine hval1 vs hvs ?_
        intro w hw
        rcases List.mem_append.mp hw with hm | hm
        · obtain ⟨hb, hr⟩ := hacc w hm
          exact ⟨fun n hn => lt_of_lt_of_le (hb n hn) hext0.bid_mono,
                 fun n hn => lt_of_lt_of_le (hr n hn) hext0.rid_mono⟩
        · simp only [List.mem_singleton] at hm
          subst hm
          exact hval0 w rfl

/-- Appending a bounded non-declaration instruction preserves `WF`. -/
theorem addInstruction_wf {b : Builder} (hwf : WF b) (inst : Instruction)
    (hd : inst ≠ Instruction.DeclareTempBucket ∧ inst ≠ Instruction.DeclareTempBucketRef)
    (hb : ∀ n ∈ inst.bids, n < b.allocator.bidCounter)
    (hr : ∀ n ∈ inst.rids, n < b.allocator.ridCounter) :
    WF (b.addInstruction inst) where
  res_decl := hwf.res_decl
  bid_count := hwf.bid_count
  rid_count := hwf.rid_count
  body_not_decl := by
    intro x hx
    rcases List.mem_append.mp hx with hm | hm
    · exact hwf.body_not_decl x hm
    · simp only [List.mem_singleton] at hm
      subst hm
      exact hd
  body_bids := by
    intro x hx
    rcases List.mem_append.mp hx with hm | hm
    · exact hwf.body_bids x hm
    · simp only [List.mem_singleton] at hm
      subst hm
      exact hb
  body_rids := by
    intro x hx
    rcases List.mem_append.mp hx with hm | hm
    · exact hwf.body_rids x hm
    · simp only [List.mem_singleton] at hm
      subst hm
      exact hr

/-- Recording an error preserves `WF` (the invariant does not mention the
errors sequence). -/
theorem errors_update_wf {b : Builder} (hwf : WF b)
    (es : List BuildTransactionError) : WF { b with errors := es } where
  res_decl := hwf.res_decl
  bid_count := hwf.bid_count
  rid_count := hwf.rid_count
  body_not_decl := hwf.body_not_decl
  body_bids := hwf.body_bids
  body_rids := hwf.body_rids

/-- Embedding of `call_function` preserves the builder invariant. -/
theorem callFunction_wf {b : Builder} (hwf : WF b) (valid : String → Bool)
    (prov : AbiProvider) (pkg : Address) (bp fn : String) (args : List String)
    (account : Option Address) :
    WF (b.callFunction valid prov pkg bp fn args account) := by
  rw [Builder.callFunction]
  rcases habi : prov.exportAbi pkg bp with _ | abi <;> simp only [habi]
  · exact errors_update_wf hwf _
  · rcases hfind : findFunctionAbi abi fn with e | f <;> simp only [hfind]
    · exact errors_update_wf hwf _
    · rcases hpa : b.prepareArgs valid f.inputs args account with ⟨res, b1⟩
      obtain ⟨hext, hval⟩ := prepareArgsAux_stepExt valid args account
        f.inputs b 0 [] res b1 hpa
      cases res with
      | error e => simp only [hpa]; exact errors_update_wf (hext.wf hwf) _
      | ok vs =>
        simp only [hpa]
        refine addInstruction_wf (hext.wf hwf) _ (by simp) ?_ ?_
        · intro n hn
          simp only [Instruction.bids, List.mem_flatten] at hn
          obtain ⟨l, hl, hnl⟩ := hn
          obtain ⟨v, hv, rfl⟩ := List.mem_map.mp hl
          exact (hval vs rfl (by simp) v hv).1 n hnl
        · intro n hn
          simp only [Instruction.rids, List.mem_flatten] at hn
          obtain ⟨l, hl, hnl⟩ := hn
          obtain ⟨v, hv, rfl⟩ := List.mem_map.mp hl
          exact (hval vs rfl (by simp) v hv).2 n hnl

/-- Embedding of `call_method` preserves the builder invariant. -/
theorem callMethod_wf {b : Builder} (hwf : WF b) (valid : String → Bool)
    (prov : AbiProvider) (comp : Address) (meth : String) (args : List String)
    (account : Option Address) :
    WF (b.callMethod valid prov comp meth args account) := by
  rw [Builder.callMethod]
  rcases habi : prov.exportAbiComponent comp with _ | abi <;> simp only [habi]
  · exact errors_update_wf hwf _
  · rcases hfind : findMethodAbi abi meth with e | m <;> simp only [hfind]
    · exact errors_update_wf hwf _
    · rcases hpa : b.prepareArgs valid m.inputs args account with ⟨res, b1⟩
      obtain ⟨hext, hval⟩ := prepareArgsAux_stepExt valid args account
        m.inputs b 0 [] res b1 hpa
      cases res with
      | error e => simp only [hpa]; exact errors_update_wf (hext.wf hwf) _
      | ok vs =>
        simp only [hpa]
        refine addInstruction_wf (hext.wf hwf) _ (by simp) ?_ ?_
        · intro n hn
          simp only [Instruction.bids, List.mem_flatten] at hn
          obtain ⟨l, hl, hnl⟩ := hn
          obtain ⟨v, hv, rfl⟩ := List.mem_map.mp hl
          exact (hval vs rfl (by simp) v hv).1 n hnl
        · intro n hn
          simp only [Instruction.rids, List.mem_flatten] at hn
          obtain ⟨l, hl, hnl⟩ := hn
          obtain ⟨v, hv, rfl⟩ := List.mem_map.mp hl
          exact (hval vs rfl (by simp) v hv).2 n hnl

theorem reserveBucket_wf {b : Builder} (hwf : WF b) :
    WF { b with
         allocator := ⟨b.allocator.bidCounter + 1, b.allocator.ridCounter⟩,
         reservations := b.reservations ++ [Instruction.DeclareTempBucket] } where
  res_decl := by
    intro inst hinst
    rcases List.mem_append.mp hinst with hm | hm
    · exact hwf.res_decl inst hm
    · simp only [List.mem_singleton] at hm
      exact Or.inl hm
  bid_count := by
    rw [List.count_append, hwf.bid_count]
    rfl
  rid_count := by
    rw [List.count_append, hwf.rid_count]
    rfl
  body_not_decl := hwf.body_not_decl
  body_bids := fun inst h n hn => Nat.lt_succ_of_lt (hwf.body_bids inst h n hn)
  body_rids := hwf.body_rids

theorem reserveBucketRef_wf {b : Builder} (hwf : WF b) :
    WF { b with
         allocator := ⟨b.allocator.bidCounter, b.allocator.ridCounter + 1⟩,
         reservations := b.reservations ++ [Instruction.DeclareTempBucketRef] } where
  res_decl := by
    intro inst hinst
    rcases List.mem_append.mp hinst with hm | hm
    · exact hwf.res_decl inst hm
    · simp only [List.mem_singleton] at hm
      exact Or.inr hm
  bid_count := by
    rw [List.count_append, hwf.bid_count]
    rfl
  rid_count := by
    rw [List.count_append, hwf.rid_count]
    rfl
  body_not_decl := hwf.body_not_decl
  body_bids := hwf.body_bids
  body_rids := fun inst h n hn => Nat.lt_succ_of_lt (hwf.body_rids inst h n hn)

/-- Every builder operation preserves the invariant. -/
theorem step_wf (valid : String → Bool) (prov : AbiProvider) {b : Builder}
    (hwf : WF b) (op : Op) : WF (step valid prov b op) := by
  cases op with
  | callFunction pkg bp fn args account => exact callFunction_wf hwf valid prov pkg bp fn args account
  | callMethod comp meth args account => exact callMethod_wf hwf valid prov comp meth args account
  | declareBucketTake amount addr =>
    exact addInstruction_wf (reserveBucket_wf hwf) _ (by simp)
      (by simp [Instruction.bids]) (by simp [Instruction.rids])
  | declareBucketRefBorrow amount addr =>
    exact addInstruction_wf (reserveBucketRef_wf hwf) _ (by simp)
      (by simp [Instruction.bids]) (by simp [Instruction.rids])
  | dropAllBucketRefs =>
    exact addInstruction_wf hwf _ (by simp) (by simp [Instruction.bids])
      (by simp [Instruction.rids])
  | depositAllBuckets account =>
    exact addInstruction_wf hwf _ (by simp) (by simp [Instruction.bids])
      (by simp [Instruction.rids])
  | publishPackage code =>
    exact addInstruction_wf hwf _ (by simp) (by simp [Instruction.bids, SmartValue.bids])
      (by simp [Instruction.rids, SmartValue.rids])
  | newTokenMutable metadata badge =>
    exact addInstruction_wf hwf _ (by simp) (by simp [Instruction.bids, SmartValue.bids])
      (by simp [Instruction.rids, SmartValue.rids])
  | newTokenFixed metadata supply =>
    exact addInstruction_wf hwf _ (by simp) (by simp [Instruction.bids, SmartValue.bids])
      (by simp [Instruction.rids, SmartValue.rids])
  | newBadgeMutable metadata badge =>
    exact addInstruction_wf hwf _ (by simp) (by simp [Instruction.bids, SmartValue.bids])
      (by simp [Instruction.rids, SmartValue.rids])
  | newBadgeFixed metadata supply =>
    exact addInstruction_wf hwf _ (by simp) (by simp [Instruction.bids, SmartValue.bids])
      (by simp [Instruction.rids, SmartValue.rids])
  | mint amount resource badge =>
    refine addInstruction_wf (addInstruction_wf (reserveBucketRef_wf hwf) _
      (by simp) (by simp [Instruction.bids]) ?_) _
      (by simp) (by simp [Instruction.bids, SmartValue.bids]) ?_
    · simp [Instruction.rids]
    · simp [Instruction.rids, SmartValue.rids, Builder.addInstruction]
  | newAccount key =>
    exact addInstruction_wf hwf _ (by simp) (by simp [Instruction.bids, SmartValue.bids])
      (by simp [Instruction.rids, SmartValue.rids])
  | newAccountWithResource key amount resource =>
    refine addInstruction_wf (addInstruction_wf (reserveBucket_wf hwf) _
      (by simp) ?_ (by simp [Instruction.rids])) _
      (by simp) ?_ (by simp [Instruction.rids, SmartValue.rids])
    · simp [Instruction.bids]
    · simp [Instruction.bids, SmartValue.bids, Builder.addInstruction]
  | withdrawFromAccount spec account =>
    show WF (b.withdrawFromAccount spec account)
    rw [withdrawFromAccount_eq]
    refine addInstruction_wf hwf _ ?_ ?_ ?_ <;>
      cases spec <;>
        simp [withdrawInstr, Instruction.bids, Instruction.rids,
          SmartValue.bids, SmartValue.rids]

/-- The fresh builder satisfies the invariant. -/
theorem mkNew_wf : WF Builder.mkNew where
  res_decl := by simp [Builder.mkNew]
  bid_count := rfl
  rid_count := rfl
  body_not_decl := by simp [Builder.mkNew]
  body_bids := by simp [Builder.mkNew]
  body_rids := by simp [Builder.mkNew]

/-- Every reachable builder satisfies the invariant. -/
theorem reachable_wf {valid : String → Bool} {prov : AbiProvider} {b : Builder}
    (h : Reachable valid prov b) : WF b := by
  obtain ⟨ops, rfl⟩ := h
  suffices hgen : ∀ (ops : List Op) (b0 : Builder), WF b0 →
      WF (ops.foldl (step valid prov) b0) by
    exact hgen ops Builder.mkNew mkNew_wf
  intro ops
  induction ops with
  | nil => exact fun b0 h0 => h0
  | cons op ops ih =>
    intro b0 h0
    exact ih _ (step_wf valid prov h0 op)


/-- If fewer than `count` occurrences precede, the `n`-th occurrence of an
element exists, at an index with exactly `n` occurrences before it. -/
theorem exists_nth_occurrence {α : Type _} [DecidableEq α] (x : α) :
    ∀ (l : List α) (n : Nat), n < l.count x →
    ∃ i, ∃ hi : i < l.length, l.get ⟨i, hi⟩ = x ∧ (l.take i).count x = n := by
  intro l
  induction l with
  | nil => intro n hn; simp at hn
  | cons a t ih =>
    intro n hn
    by_cases ha : a = x
    · subst ha
      cases n with
      | zero => exact ⟨0, by simp, rfl, by simp⟩
      | succ m =>
        have hm : m < t.count a := by
          rw [List.count_cons_self] at hn
          omega
        obtain ⟨i, hi, hx, hc⟩ := ih m hm
        refine ⟨i + 1, by simpa using Nat.succ_lt_succ hi, hx, ?_⟩
        rw [List.take_succ_cons, List.count_cons_self, hc]
    · have hne : x ≠ a := fun hh => ha hh.symm
      rw [List.count_cons_of_ne hne] at hn
      obtain ⟨i, hi, hx, hc⟩ := ih n hn
      refine ⟨i + 1, by simpa using Nat.succ_lt_succ hi, hx, ?_⟩
      rw [List.take_succ_cons, List.count_cons_of_ne hne, hc]

theorem decl_bids_nil {inst : Instruction}
    (h : inst = Instruction.DeclareTempBucket ∨ inst = Instruction.DeclareTempBucketRef) :
    inst.bids = [] ∧ inst.rids = [] := by
  rcases h with rfl | rfl <;> exact ⟨rfl, rfl⟩


/-- In `(A ++ B) ++ [e]` with all of `A` satisfying `P` and nothing in `B`
nor `e` satisfying it, every `P`-position precedes every non-`P`
position. -/
theorem hoist_order_lemma (A B : List Instruction) (e : Instruction)
    (P : Instruction → Prop)
    (hA : ∀ inst ∈ A, P inst) (hB : ∀ inst ∈ B, ¬ P inst) (he : ¬ P e) :
    ∀ i j (hi : i < ((A ++ B) ++ [e]).length) (hj : j < ((A ++ B) ++ [e]).length),
      P (((A ++ B) ++ [e]).get ⟨i, hi⟩) → ¬ P (((A ++ B) ++ [e]).get ⟨j, hj⟩) →
      i < j := by
  intro i j hi hj hP hnP
  have hlen : ((A ++ B) ++ [e]).length = A.length + B.length + 1 := by
    simp
    omega
  have hiA : i < A.length := by
    by_contra hge
    push_neg at hge
    rcases Nat.lt_or_ge i (A.length + B.length) with hcase | hcase
    · have h1 : i < (A ++ B).length := by simp; omega
      have : ((A ++ B) ++ [e]).get ⟨i, hi⟩ = B.get ⟨i - A.length, by omega⟩ := by
        rw [List.get_eq_getElem, List.getElem_append_left h1,
          List.getElem_append_right hge]
        rfl
      rw [this] at hP
      exact hB _ (List.get_mem _ _ _) hP
    · have h2 : (A ++ B).length ≤ i := by simp; omega
      have hi0 : i - (A ++ B).length = 0 := by
        rw [hlen] at hi
        simp at h2 ⊢
        omega
      have : ((A ++ B) ++ [e]).get ⟨i, hi⟩ = e := by
        rw [List.get_eq_getElem, List.getElem_append_right h2]
        simp [hi0]
      rw [this] at hP
      exact he hP
  have hjA : A.length ≤ j := by
    by_contra hlt
    push_neg at hlt
    have h1 : j < (A ++ B).length := by simp; omega
    have : ((A ++ B) ++ [e]).get ⟨j, hj⟩ = A.get ⟨j, hlt⟩ := by
      rw [List.get_eq_getElem, List.getElem_append_left h1,
        List.getElem_append_left hlt]
      rfl
    rw [this] at hnP
    exact hnP (hA _ (List.get_mem _ _ _))
  omega

/-- In `(A ++ B) ++ [e]`, if `A` and `e` carry no ids, the `n`-th
occurrence of the marker `x` in `A` precedes any position whose
instruction references id `n < A.count x`. -/
theorem hoist_ref_lemma (A B : List Instruction) (e : Instruction)
    (x : Instruction) (ids : Instruction → List Nat)
    (hA : ∀ inst ∈ A, ids inst = [])
    (he : ids e = [])
    (hB : ∀ inst ∈ B, ∀ n ∈ ids inst, n < A.count x) :
    ∀ j (hj : j < ((A ++ B) ++ [e]).length) (n : Nat),
      n ∈ ids (((A ++ B) ++ [e]).get ⟨j, hj⟩) →
      ∃ i, ∃ hi : i < ((A ++ B) ++ [e]).length, i < j ∧
        ((A ++ B) ++ [e]).get ⟨i, hi⟩ = x ∧
        ((((A ++ B) ++ [e]).take i).count x) = n := by
  intro j hj n hn
  have hlen : ((A ++ B) ++ [e]).length = A.length + B.length + 1 := by
    simp
    omega
  -- locate j in the body region
  have hjA : A.length ≤ j := by
    by_contra hlt
    push_neg at hlt
    have h1 : j < (A ++ B).length := by simp; omega
    have : ((A ++ B) ++ [e]).get ⟨j, hj⟩ = A.get ⟨j, hlt⟩ := by
      rw [List.get_eq_getElem, List.getElem_append_left h1,
        List.getElem_append_left hlt]
      rfl
    rw [this, hA _ (List.get_mem _ _ _)] at hn
    simp at hn
  have hjB : j < A.length + B.length := by
    rcases Nat.lt_or_ge j (A.length + B.length) with hcase | hcase
    · exact hcase
    · exfalso
      have h2 : (A ++ B).length ≤ j := by simp; omega
      have hj0 : j - (A ++ B).length = 0 := by
        rw [hlen] at hj
        simp at h2 ⊢
        omega
      have : ((A ++ B) ++ [e]).get ⟨j, hj⟩ = e := by
        rw [List.get_eq_getElem, List.getElem_append_right h2]
        simp [hj0]
      rw [this, he] at hn
      simp at hn
  have h1 : j < (A ++ B).length := by simp; omega
  have hinst : ((A ++ B) ++ [e]).get ⟨j, hj⟩ = B.get ⟨j - A.length, by omega⟩ := by
    rw [List.get_eq_getElem, List.getElem_append_left h1,
      List.getElem_append_right hjA]
    rfl
  rw [hinst] at hn
  have hbound : n < A.count x := hB _ (List.get_mem _ _ _) n hn
  obtain ⟨i, hiA, hx, hc⟩ := exists_nth_occurrence x A n hbound
  have hi : i < ((A ++ B) ++ [e]).length := by rw [hlen]; omega
  refine ⟨i, hi, by omega, ?_, ?_⟩
  · have h1i : i < (A ++ B).length := by simp; omega
    rw [List.get_eq_getElem, List.getElem_append_left h1i,
      List.getElem_append_left hiA]
    rw [List.get_eq_getElem] at hx
    exact hx
  · rw [List.take_append_of_le_length (by simp; omega),
      List.take_append_of_le_length (by omega)]
    exact hc


/-- C1: For a builder reachable through its operations whose errors
sequence is empty, `build(signers)` returns exactly the reservations
followed by the body followed by one final `End{signers}`, and in that
Program every declaration precedes every non-declaration instruction
(relative order within each group being preserved by the concatenation),
and the `n`-th bucket (resp. bucket-ref) declaration precedes every
instruction referencing bucket id `n` (resp. bucket-ref id `n`). -/
theorem build_program_hoisting (valid : String → Bool) (prov : AbiProvider)
    (b : Builder) (signers : List Address)
    (hreach : Reachable valid prov b) (herr : b.errors = []) :
    b.build signers =
      .ok ((b.reservations ++ b.instructions) ++ [Instruction.End signers]) ∧
    ∀ p, p = (b.reservations ++ b.instructions) ++ [Instruction.End signers] →
      (∀ i j (hi : i < p.length) (hj : j < p.length),
        (p.get ⟨i, hi⟩ = Instruction.DeclareTempBucket ∨
          p.get ⟨i, hi⟩ = Instruction.DeclareTempBucketRef) →
        ¬(p.get ⟨j, hj⟩ = Instruction.DeclareTempBucket ∨
          p.get ⟨j, hj⟩ = Instruction.DeclareTempBucketRef) →
        i < j) ∧
      (∀ j (hj : j < p.length) (n : Nat), n ∈ (p.get ⟨j, hj⟩).bids →
        ∃ i, ∃ hi : i < p.length, i < j ∧
          p.get ⟨i, hi⟩ = Instruction.DeclareTempBucket ∧
          (p.take i).count Instruction.DeclareTempBucket = n) ∧
      (∀ j (hj : j < p.length) (n : Nat), n ∈ (p.get ⟨j, hj⟩).rids →
        ∃ i, ∃ hi : i < p.length, i < j ∧
          p.get ⟨i, hi⟩ = Instruction.DeclareTempBucketRef ∧
          (p.take i).count Instruction.DeclareTempBucketRef = n) := by
  have hwf := reachable_wf hreach
  constructor
  · rw [Builder.build, herr, List.append_assoc]
  intro p hp
  subst hp
  refine ⟨?_, ?_, ?_⟩
  · exact hoist_order_lemma b.reservations b.instructions (.End signers) _
      hwf.res_decl
      (fun inst hm hd => by
        obtain ⟨h1, h2⟩ := hwf.body_not_decl inst hm
        rcases hd with hd | hd
        · exact h1 hd
        · exact h2 hd)
      (by simp)
  · exact hoist_ref_lemma b.reservations b.instructions (.End signers)
      Instruction.DeclareTempBucket Instruction.bids
      (fun inst hm => (decl_bids_nil (hwf.res_decl inst hm)).1)
      rfl
      (fun inst hm n hn => by
        rw [hwf.bid_count]
        exact hwf.body_bids inst hm n hn)
  · exact hoist_ref_lemma b.reservations b.instructions (.End signers)
      Instruction.DeclareTempBucketRef Instruction.rids
      (fun inst hm => (decl_bids_nil (hwf.res_decl inst hm)).2)
      rfl
      (fun inst hm n hn => by
        rw [hwf.rid_count]
        exact hwf.body_rids inst hm n hn)

/-- Witness for C1: the builder after one successful `callFunction` on the
example fixtures is reachable with no errors, and its build is the
reservations, the body and the final `End`. -/
theorem build_program_hoisting_witness :
    (Builder.mkNew.callFunction exampleValid exampleProvider "pkg1" "BP" "f"
        ["10", "5,tokenA"] none).build [] =
      .ok (((Builder.mkNew.callFunction exampleValid exampleProvider "pkg1" "BP" "f"
          ["10", "5,tokenA"] none).reservations ++
        (Builder.mkNew.callFunction exampleValid exampleProvider "pkg1" "BP" "f"
          ["10", "5,tokenA"] none).instructions) ++ [Instruction.End []]) :=
  (build_program_hoisting exampleValid exampleProvider _ []
    ⟨[Op.callFunction "pkg1" "BP" "f" ["10", "5,tokenA"] none], rfl⟩
    (by decide)).1


theorem callFunction_failure_core (valid : String → Bool) (prov : AbiProvider)
    (b : Builder) (pkg : Address) (bp fn : String) (args : List String)
    (account : Option Address)
    (h : (b.callFunction valid prov pkg bp fn args account).errors ≠ b.errors) :
    (∃ e, (b.callFunction valid prov pkg bp fn args account).errors =
      b.errors ++ [e]) ∧
    (∃ l, (b.callFunction valid prov pkg bp fn args account).reservations =
        b.reservations ++ l ∧
      ∀ inst ∈ l, inst = Instruction.DeclareTempBucket ∨
        inst = Instruction.DeclareTempBucketRef) ∧
    (∃ l, (b.callFunction valid prov pkg bp fn args account).instructions =
        b.instructions ++ l ∧ ∀ inst ∈ l, inst.isResourceMove = true) := by
  rw [Builder.callFunction] at h ⊢
  rcases habi : prov.exportAbi pkg bp with _ | abi <;> simp only [habi] at h ⊢
  · exact ⟨⟨_, rfl⟩, ⟨[], by simp⟩, ⟨[], by simp⟩⟩
  · rcases hfind : findFunctionAbi abi fn with e | f <;> simp only [hfind] at h ⊢
    · exact ⟨⟨e, rfl⟩, ⟨[], by simp⟩, ⟨[], by simp⟩⟩
    · rcases hpa : b.prepareArgs valid f.inputs args account with ⟨res, b1⟩
      obtain ⟨hext, _⟩ := prepareArgsAux_stepExt valid args account
        f.inputs b 0 [] res b1 hpa
      cases res with
      | error e =>
        simp only [hpa] at h ⊢
        refine ⟨⟨.FailedToBuildArgs e, by rw [hext.errors_eq]⟩, ?_, ?_⟩
        · obtain ⟨l, hl, hd, _, _⟩ := hext.res_ext
          exact ⟨l, hl, hd⟩
        · obtain ⟨l, hl, hp⟩ := hext.body_ext
          exact ⟨l, hl, fun inst hm => (hp inst hm).1⟩
      | ok vs =>
        simp only [hpa] at h
        exfalso
        exact h (by
          show (b1.addInstruction _).errors = b.errors
          rw [show (b1.addInstruction (Instruction.CallFunction pkg bp fn vs)).errors
            = b1.errors from rfl, hext.errors_eq])

theorem callMethod_failure_core (valid : String → Bool) (prov : AbiProvider)
    (b : Builder) (comp : Address) (meth : String) (args : List String)
    (account : Option Address)
    (h : (b.callMethod valid prov comp meth args account).errors ≠ b.errors) :
    (∃ e, (b.callMethod valid prov comp meth args account).errors =
      b.errors ++ [e]) ∧
    (∃ l, (b.callMethod valid prov comp meth args account).reservations =
        b.reservations ++ l ∧
      ∀ inst ∈ l, inst = Instruction.DeclareTempBucket ∨
        inst = Instruction.DeclareTempBucketRef) ∧
    (∃ l, (b.callMethod valid prov comp meth args account).instructions =
        b.instructions ++ l ∧ ∀ inst ∈ l, inst.isResourceMove = true) := by
  rw [Builder.callMethod] at h ⊢
  rcases habi : prov.exportAbiComponent comp with _ | abi <;> simp only [habi] at h ⊢
  · exact ⟨⟨_, rfl⟩, ⟨[], by simp⟩, ⟨[], by simp⟩⟩
  · rcases hfind : findMethodAbi abi meth with e | m <;> simp only [hfind] at h ⊢
    · exact ⟨⟨e, rfl⟩, ⟨[], by simp⟩, ⟨[], by simp⟩⟩
    · rcases hpa : b.prepareArgs valid m.inputs args account with ⟨res, b1⟩
      obtain ⟨hext, _⟩ := prepareArgsAux_stepExt valid args account
        m.inputs b 0 [] res b1 hpa
      cases res with
      | error e =>
        simp only [hpa] at h ⊢
        refine ⟨⟨.FailedToBuildArgs e, by rw [hext.errors_eq]⟩, ?_, ?_⟩
        · obtain ⟨l, hl, hd, _, _⟩ := hext.res_ext
          exact ⟨l, hl, hd⟩
        · obtain ⟨l, hl, hp⟩ := hext.body_ext
          exact ⟨l, hl, fun inst hm => (hp inst hm).1⟩
      | ok vs =>
        simp only [hpa] at h
        exfalso
        exact h (by
          show (b1.addInstruction _).errors = b.errors
          rw [show (b1.addInstruction (Instruction.CallMethod comp meth vs)).errors
            = b1.errors from rfl, hext.errors_eq])

/-- Amended C3: a failing `callFunction` (and symmetrically `callMethod`)
appends exactly one error; its own `CallFunction`/`CallMethod` instruction
is never appended; but instructions emitted while coercing parameters
before the failing one — declarations into the reservations, and
resource-move fills and withdraws into the body — are retained, not
rolled back. -/
theorem call_failure_behavior (valid : String → Bool) (prov : AbiProvider)
    (b : Builder) (pkg : Address) (bp fn : String) (fargs : List String)
    (facc : Option Address) (comp : Address) (meth : String)
    (margs : List String) (macc : Option Address) :
    ((b.callFunction valid prov pkg bp fn fargs facc).errors ≠ b.errors →
      (∃ e, (b.callFunction valid prov pkg bp fn fargs facc).errors =
        b.errors ++ [e]) ∧
      (∃ l, (b.callFunction valid prov pkg bp fn fargs facc).reservations =
          b.reservations ++ l ∧
        ∀ inst ∈ l, inst = Instruction.DeclareTempBucket ∨
          inst = Instruction.DeclareTempBucketRef) ∧
      (∃ l, (b.callFunction valid prov pkg bp fn fargs facc).instructions =
          b.instructions ++ l ∧ ∀ inst ∈ l, inst.isResourceMove = true)) ∧
    ((b.callMethod valid prov comp meth margs macc).errors ≠ b.errors →
      (∃ e, (b.callMethod valid prov comp meth margs macc).errors =
        b.errors ++ [e]) ∧
      (∃ l, (b.callMethod valid prov comp meth margs macc).reservations =
          b.reservations ++ l ∧
        ∀ inst ∈ l, inst = Instruction.DeclareTempBucket ∨
          inst = Instruction.DeclareTempBucketRef) ∧
      (∃ l, (b.callMethod valid prov comp meth margs macc).instructions =
          b.instructions ++ l ∧ ∀ inst ∈ l, inst.isResourceMove = true)) :=
  ⟨fun h => callFunction_failure_core valid prov b pkg bp fn fargs facc h,
   fun h => callMethod_failure_core valid prov b comp meth margs macc h⟩

/-- Counterexample to C3 as stated: a `callFunction` on a `(Bucket,
Decimal)` signature whose second argument fails to parse appends exactly
one error and no `CallFunction`, but the program state is *changed*: the
bucket declaration and its fill, emitted while coercing the first
parameter, are retained. -/
theorem call_failure_counterexample :
    (Builder.mkNew.callFunction exampleValid exampleProvider "pkg1" "BP" "g"
        ["5,tokenA", "x"] none).reservations = [Instruction.DeclareTempBucket] ∧
    (Builder.mkNew.callFunction exampleValid exampleProvider "pkg1" "BP" "g"
        ["5,tokenA", "x"] none).instructions =
      [Instruction.TakeFromContext 5 "tokenA" 0] ∧
    (Builder.mkNew.callFunction exampleValid exampleProvider "pkg1" "BP" "g"
        ["5,tokenA", "x"] none).errors =
      [.FailedToBuildArgs (.FailedToParse 1 (Ty.Custom "Decimal") "x")] := by
  refine ⟨?_, ?_, ?_⟩ <;> decide

/-- Witness for amended C3: the failing `(Bucket, Decimal)` call and a
failing method call, instantiated concretely. -/
theorem call_failure_behavior_witness :
    ((∃ e, (Builder.mkNew.callFunction exampleValid exampleProvider "pkg1" "BP" "g"
        ["5,tokenA", "x"] none).errors = ([] : List BuildTransactionError) ++ [e]) ∧
      (∃ l, (Builder.mkNew.callFunction exampleValid exampleProvider "pkg1" "BP" "g"
          ["5,tokenA", "x"] none).reservations = ([] : List Instruction) ++ l ∧
        ∀ inst ∈ l, inst = Instruction.DeclareTempBucket ∨
          inst = Instruction.DeclareTempBucketRef) ∧
      (∃ l, (Builder.mkNew.callFunction exampleValid exampleProvider "pkg1" "BP" "g"
          ["5,tokenA", "x"] none).instructions = ([] : List Instruction) ++ l ∧
        ∀ inst ∈ l, inst.isResourceMove = true)) ∧
    ((∃ e, (Builder.mkNew.callMethod exampleValid exampleProvider "comp1" "m"
        ["x"] none).errors = ([] : List BuildTransactionError) ++ [e]) ∧
      (∃ l, (Builder.mkNew.callMethod exampleValid exampleProvider "comp1" "m"
          ["x"] none).reservations = ([] : List Instruction) ++ l ∧
        ∀ inst ∈ l, inst = Instruction.DeclareTempBucket ∨
          inst = Instruction.DeclareTempBucketRef) ∧
      (∃ l, (Builder.mkNew.callMethod exampleValid exampleProvider "comp1" "m"
          ["x"] none).instructions = ([] : List Instruction) ++ l ∧
        ∀ inst ∈ l, inst.isResourceMove = true)) :=
  ⟨(call_failure_behavior exampleValid exampleProvider Builder.mkNew
      "pkg1" "BP" "g" ["5,tokenA", "x"] none "comp1" "m" ["x"] none).1 (by decide),
   (call_failure_behavior exampleValid exampleProvider Builder.mkNew
      "pkg1" "BP" "g" ["5,tokenA", "x"] none "comp1" "m" ["x"] none).2 (by decide)⟩

theorem runDecls_spec : ∀ (ks : List DKind) (b : Builder),
    (runDecls b ks).1.reservations = b.reservations ++ ks.map declKindInstr ∧
    (runDecls b ks).2.length = ks.length ∧
    ∀ i k, ks.get? i = some k →
      (runDecls b ks).2.get? i = some (match k with
        | .bucket => b.allocator.bidCounter + (ks.take i).count DKind.bucket
        | .bucketRef => b.allocator.ridCounter + (ks.take i).count DKind.bucketRef) := by
  intro ks
  induction ks with
  | nil =>
    intro b
    refine ⟨by simp [runDecls], rfl, ?_⟩
    intro i k hk
    simp at hk
  | cons k ks ih =>
    intro b
    cases k with
    | bucket =>
      obtain ⟨hres, hlen, hids⟩ := ih
        (b.declareBucket fun bb _ => bb)
      refine ⟨?_, ?_, ?_⟩
      · simp only [runDecls, hres]
        simp [Builder.declareBucket, IdAllocator.newBid, List.map_cons, declKindInstr]
      · simp only [runDecls, List.length_cons, List.length_cons]
        simp [hlen]
      · intro i k hk
        cases i with
        | zero =>
          simp only [List.get?_cons_zero, Option.some.injEq] at hk
          subst hk
          simp [runDecls]
        | succ i =>
          simp only [List.get?_cons_succ] at hk
          have := hids i k hk
          simp only [runDecls, List.get?_cons_succ]
          rw [this]
          cases k with
          | bucket =>
            simp [Builder.declareBucket, IdAllocator.newBid, List.take_succ_cons,
              List.count_cons_self]
            omega
          | bucketRef =>
            simp [Builder.declareBucket, IdAllocator.newBid, List.take_succ_cons]
    | bucketRef =>
      obtain ⟨hres, hlen, hids⟩ := ih
        (b.declareBucketRef fun bb _ => bb)
      refine ⟨?_, ?_, ?_⟩
      · simp only [runDecls, hres]
        simp [Builder.declareBucketRef, IdAllocator.newRid, List.map_cons, declKindInstr]
      · simp only [runDecls, List.length_cons, List.length_cons]
        simp [hlen]
      · intro i k hk
        cases i with
        | zero =>
          simp only [List.get?_cons_zero, Option.some.injEq] at hk
          subst hk
          simp [runDecls]
        | succ i =>
          simp only [List.get?_cons_succ] at hk
          have := hids i k hk
          simp only [runDecls, List.get?_cons_succ]
          rw [this]
          cases k with
          | bucket =>
            simp [Builder.declareBucketRef, IdAllocator.newRid, List.take_succ_cons]
          | bucketRef =>
            simp [Builder.declareBucketRef, IdAllocator.newRid, List.take_succ_cons,
              List.count_cons_self]
            omega


theorem declKindInstr_injective : Function.Injective declKindInstr := by
  intro a b hab
  cases a <;> cases b <;> simp [declKindInstr] at hab ⊢

/-- C8: Identifier monotonicity: for any interleaved sequence of
`declareBucket`/`declareBucketRef` calls on a fresh builder, the `i`-th
call returns the number of earlier calls of the *same* kind (so each kind
counts `0,1,2,...` independently), the reservations are exactly the
declaration instructions in call order, and the id returned by a bucket
declaration equals the 0-based ordinal of its `DeclareTempBucket` among
bucket declarations in the reservations (symmetrically for bucket
refs). -/
theorem declare_ids_monotone (ks : List DKind) :
    (runDecls Builder.mkNew ks).2.length = ks.length ∧
    (∀ i k, ks.get? i = some k →
      (runDecls Builder.mkNew ks).2.get? i = some ((ks.take i).count k)) ∧
    (runDecls Builder.mkNew ks).1.reservations = ks.map declKindInstr ∧
    (∀ i k, ks.get? i = some k →
      (runDecls Builder.mkNew ks).2.get? i =
        some ((((runDecls Builder.mkNew ks).1.reservations).take i).count
          (declKindInstr k))) := by
  obtain ⟨hres, hlen, hids⟩ := runDecls_spec ks Builder.mkNew
  have hres0 : (runDecls Builder.mkNew ks).1.reservations = ks.map declKindInstr := by
    simpa [Builder.mkNew] using hres
  have hids0 : ∀ i k, ks.get? i = some k →
      (runDecls Builder.mkNew ks).2.get? i = some ((ks.take i).count k) := by
    intro i k hk
    have := hids i k hk
    cases k <;> simpa [Builder.mkNew, IdAllocator.mkNew] using this
  refine ⟨hlen, hids0, hres0, ?_⟩
  intro i k hk
  rw [hids0 i k hk, hres0, ← List.map_take,
    List.count_map_of_injective _ declKindInstr declKindInstr_injective]

/-- Witness for C8 on the interleaving `[bucket, ref, bucket, bucket,
ref]`: the fourth call (index 3, a bucket declare) returns id 2. -/
theorem declare_ids_monotone_witness :
    (runDecls Builder.mkNew [DKind.bucket, DKind.bucketRef, DKind.bucket,
        DKind.bucket, DKind.bucketRef]).2.get? 3 =
      some (([DKind.bucket, DKind.bucketRef, DKind.bucket, DKind.bucket,
        DKind.bucketRef].take 3).count DKind.bucket) :=
  (declare_ids_monotone _).2.1 3 DKind.bucket (by decide)

end RadixBuilder
